import Mathlib

/-!
# Verification of the `fastlz_native` codec (pyfastlz-native)

Shallow embedding of `src/fastlz_native/compress.py` and
`src/fastlz_native/decompress.py`.  Byte strings are `List Nat` whose
elements are byte values; Python exceptions are modelled by `Except PyError`.
-/

namespace FastLZ

/-- The Python exception kinds that the codec can surface. -/
inductive PyError where
  | valueError (msg : String)
  | indexError
  | structError
  | notImplementedError (msg : String)
deriving DecidableEq, Repr

/-- `int.from_bytes(l, byteorder="little")` for a 4-byte slice. -/
def leU32 (l : List Nat) : Nat :=
  l.getD 0 0 + 256 * l.getD 1 0 + 65536 * l.getD 2 0 + 16777216 * l.getD 3 0

/-- `struct.pack("<I", n)`: 4 little-endian bytes; raises `struct.error` when
`n` does not fit an unsigned 32-bit value. -/
def packU32 (n : Nat) : Except PyError (List Nat) :=
  if n < 4294967296 then
    .ok [n % 256, n / 256 % 256, n / 65536 % 256, n / 16777216 % 256]
  else .error .structError

/-- Python slice read `l[i:j]` for nonnegative bounds (clamping, never raising). -/
def pySlice (l : List Nat) (i j : Nat) : List Nat := (l.take j).drop i

/-- Python bytearray slice assignment `l[i:j] = repl` for nonnegative bounds:
clamps the bounds and splices `repl` in (resizing when lengths differ). -/
def pySetSlice (l : List Nat) (i j : Nat) (repl : List Nat) : List Nat :=
  let i1 := min i l.length
  let j1 := max i1 (min j l.length)
  l.take i1 ++ repl ++ l.drop j1

/-- Python indexing `l[i]` for a nonnegative index: raises `IndexError`
when out of range. -/
def pyGetNat (l : List Nat) (i : Nat) : Except PyError Nat :=
  if i < l.length then .ok (l.getD i 0) else .error .indexError

/-- Resolve a Python (possibly negative) index against a buffer length. -/
def pyIdx (len : Nat) (i : Int) : Option Nat :=
  let j : Int := if i < 0 then (len : Int) + i else i
  if 0 ≤ j ∧ j < (len : Int) then some j.toNat else none

/-- Python indexing `l[i]` with an arbitrary (possibly negative) index. -/
def pyGet (l : List Nat) (i : Int) : Except PyError Nat :=
  match pyIdx l.length i with
  | some j => .ok (l.getD j 0)
  | none => .error .indexError

/-- Python element assignment `l[i] = v` with an arbitrary index. -/
def pySet (l : List Nat) (i : Int) (v : Nat) : Except PyError (List Nat) :=
  match pyIdx l.length i with
  | some j => .ok (l.set j v)
  | none => .error .indexError

/-! ## `_memmove` (decompress.py)

`for i in range(mlen): data[stidx + i] = data[stidx - offset + i]`,
byte-serial by construction.  `memmoveFrom` runs the iterations
`i, i+1, ..., i+n-1`. -/

def memmoveFrom (stidx : Nat) (offset : Int) : List Nat → Nat → Nat → Except PyError (List Nat)
  | data, _, 0 => .ok data
  | data, i, n+1 =>
    match pyGet data ((stidx : Int) - offset + i) with
    | .error e => .error e
    | .ok v =>
      match pySet data ((stidx : Int) + i) v with
      | .error e => .error e
      | .ok d2 => memmoveFrom stidx offset d2 (i+1) n

/-- `_memmove(data, stidx, offset, mlen)` from decompress.py. -/
def memmove (data : List Nat) (stidx : Nat) (offset : Int) (mlen : Nat) :
    Except PyError (List Nat) :=
  memmoveFrom stidx offset data 0 mlen

/-! ## Serial-copy semantics of `_memmove` -/

/-- Pure byte-serial extension: append `n` bytes to `buf`, read serially
starting at index `src`; reads may hit bytes appended earlier in the same
call, which is exactly the overlap behaviour of `_memmove`. -/
def serialExt (buf : List Nat) (src : Nat) : Nat → List Nat
  | 0 => buf
  | n+1 => serialExt (buf ++ [buf.getD src 0]) (src + 1) n

theorem serialExt_length (n : Nat) :
    ∀ buf src, (serialExt buf src n).length = buf.length + n := by
  induction n with
  | zero => intro buf src; simp [serialExt]
  | succ n ih =>
    intro buf src
    rw [serialExt, ih]
    simp
    omega

theorem serialExt_getD_lt (n : Nat) :
    ∀ buf src j, j < buf.length → (serialExt buf src n).getD j 0 = buf.getD j 0 := by
  induction n with
  | zero => intro buf src j _; rfl
  | succ n ih =>
    intro buf src j hj
    rw [serialExt, ih _ _ _ (by simp; omega)]
    exact List.getD_append _ _ _ _ hj

theorem serialExt_succ_last (n : Nat) :
    ∀ buf src, serialExt buf src (n + 1) =
      serialExt buf src n ++ [(serialExt buf src n).getD (src + n) 0] := by
  induction n with
  | zero => intro buf src; simp [serialExt]
  | succ n ih =>
    intro buf src
    rw [serialExt, ih]
    rw [show serialExt buf src (n + 1) = serialExt (buf ++ [buf.getD src 0]) (src + 1) n from rfl]
    ring_nf

theorem serialExt_mono (m n : Nat) (h : m ≤ n) (buf : List Nat) (src : Nat) :
    ∃ t, serialExt buf src n = serialExt buf src m ++ t := by
  induction n with
  | zero => exact ⟨[], by simpa using (by omega : m = 0) ▸ rfl⟩
  | succ n ih =>
    rcases Nat.lt_or_ge m (n + 1) with hm | hm
    · obtain ⟨t, ht⟩ := ih (by omega)
      exact ⟨t ++ [(serialExt buf src n).getD (src + n) 0],
        by rw [serialExt_succ_last, ht, List.append_assoc]⟩
    · exact ⟨[], by have : m = n + 1 := by omega
                    simp [this]⟩

/-- The byte written at logical position `buf.length + i` by a serial copy
repeats the source block with period `buf.length - src`. -/
theorem serialExt_getD_mod (buf : List Nat) (src : Nat) (hsrc : src < buf.length) :
    ∀ i n, i < n →
      (serialExt buf src n).getD (buf.length + i) 0 =
        buf.getD (src + i % (buf.length - src)) 0 := by
  intro i
  induction i using Nat.strong_induction_on with
  | _ i ih =>
    intro n hin
    -- reduce from n to i + 1
    obtain ⟨t, ht⟩ := serialExt_mono (i + 1) n (by omega) buf src
    have hlen : (serialExt buf src (i + 1)).length = buf.length + (i + 1) :=
      serialExt_length _ _ _
    rw [ht, List.getD_append _ _ _ _ (by omega)]
    rw [serialExt_succ_last]
    have hlen2 : (serialExt buf src i).length = buf.length + i := serialExt_length _ _ _
    rw [List.getD_append_right _ _ _ _ (le_of_eq hlen2)]
    rw [hlen2]
    simp only [Nat.add_sub_cancel_left, Nat.sub_self]
    rcases Nat.lt_or_ge (src + i) buf.length with hc | hc
    · -- still reading the original block
      rw [serialExt_getD_lt _ _ _ _ hc]
      have : i % (buf.length - src) = i := Nat.mod_eq_of_lt (by omega)
      rw [this]
      rfl
    · -- reading a byte produced earlier in this very copy
      have hd : src + i = buf.length + (i - (buf.length - src)) := by omega
      rw [hd, ih (i - (buf.length - src)) (by omega) i (by omega)]
      have : (i - (buf.length - src)) % (buf.length - src) = i % (buf.length - src) := by
        have h2 : i = (i - (buf.length - src)) + (buf.length - src) := by omega
        conv_rhs => rw [h2]
        rw [Nat.add_mod_right]
      rw [this]
      rfl

theorem pyGet_ok {l : List Nat} {j : Nat} (h : j < l.length) :
    pyGet l (j : Int) = .ok (l.getD j 0) := by
  unfold pyGet pyIdx
  have h1 : ¬ ((j : Int) < 0) := by omega
  have h2 : (0 : Int) ≤ (j : Int) ∧ (j : Int) < (l.length : Int) := by omega
  simp only [h1, if_false, h2, dif_pos, Int.toNat_ofNat]
  simp

theorem pySet_ok {l : List Nat} {j : Nat} (h : j < l.length) (v : Nat) :
    pySet l (j : Int) v = .ok (l.set j v) := by
  unfold pySet pyIdx
  have h1 : ¬ ((j : Int) < 0) := by omega
  have h2 : (0 : Int) ≤ (j : Int) ∧ (j : Int) < (l.length : Int) := by omega
  simp only [h1, if_false, h2, dif_pos, Int.toNat_ofNat]
  simp

/-- Running `_memmove`'s loop over a buffer `D ++ rest` with the write cursor
at `D.length` performs exactly a byte-serial extension of `D`. -/
theorem memmoveFrom_ok (stidx o : Nat) (ho1 : 1 ≤ o) (ho2 : o ≤ stidx) :
    ∀ n D rest i, D.length = stidx + i → n ≤ rest.length →
      memmoveFrom stidx (o : Int) (D ++ rest) i n =
        .ok (serialExt D (D.length - o) n ++ rest.drop n) := by
  intro n
  induction n with
  | zero => intro D rest i _ _; simp [memmoveFrom, serialExt]
  | succ n ih =>
    intro D rest i hD hn
    rw [memmoveFrom]
    have hidx : (stidx : Int) - o + i = ((D.length - o : Nat) : Int) := by omega
    rw [hidx, pyGet_ok (by simp; omega)]
    simp only []
    have hget : (D ++ rest).getD (D.length - o) 0 = D.getD (D.length - o) 0 :=
      List.getD_append _ _ _ _ (by omega)
    have hidx2 : (stidx : Int) + i = ((D.length : Nat) : Int) := by omega
    rw [hget, hidx2, pySet_ok (by simp; omega)]
    simp only []
    cases rest with
    | nil => simp at hn
    | cons r rest' =>
      have hset : (D ++ r :: rest').set D.length (D.getD (D.length - o) 0) =
          (D ++ [D.getD (D.length - o) 0]) ++ rest' := by
        simp [List.set_append]
      rw [hset]
      rw [ih (D ++ [D.getD (D.length - o) 0]) rest' (i + 1) (by simp; omega) (by simpa using hn)]
      rw [show serialExt D (D.length - o) (n + 1) =
        serialExt (D ++ [D.getD (D.length - o) 0]) (D.length - o + 1) n from rfl]
      have : (D ++ [D.getD (D.length - o) 0]).length - o = D.length - o + 1 := by simp; omega
      rw [this]
      simp

/-- `_memmove` on an in-bounds backward copy: specification via `serialExt`. -/
theorem memmove_ok {D rest : List Nat} {o mlen : Nat} (ho1 : 1 ≤ o) (ho2 : o ≤ D.length)
    (hm : mlen ≤ rest.length) :
    memmove (D ++ rest) D.length (o : Int) mlen =
      .ok (serialExt D (D.length - o) mlen ++ rest.drop mlen) := by
  unfold memmove
  exact memmoveFrom_ok D.length o ho1 ho2 mlen D rest 0 (by omega) hm

/-! ## Level-1 match finder (compress.py `_find_match_lv1`)

The inner `while` loop of `_find_match_lv1`, continuing from a partial run
`len`.  The Python condition also checks `match_pos + length >= 0`, which is
trivially true for the nonnegative indices used here. -/

def matchLenFrom (data : List Nat) (pos mpos maxMatchLen len : Nat) : Nat :=
  if pos + len < data.length ∧ len < maxMatchLen ∧
      data.getD (pos + len) 0 = data.getD (mpos + len) 0 then
    matchLenFrom data pos mpos maxMatchLen (len + 1)
  else len
termination_by maxMatchLen - len
decreasing_by omega

/-- The `for offset in range(...)` loop of `_find_match_lv1`, scanning
offsets `offset, offset+1, ..., stop-1` with the running best pair.
The `if match_pos < 0: break` guard of the source never fires because
`offset ≤ pos` throughout the range. -/
def findMatchFrom (data : List Nat) (pos minMatchLen maxMatchLen stop offset bestOff bestLen : Nat) :
    Nat × Nat :=
  if offset < stop then
    let length := matchLenFrom data pos (pos - offset) maxMatchLen 0
    if minMatchLen ≤ length ∧ bestLen < length then
      findMatchFrom data pos minMatchLen maxMatchLen stop (offset + 1) offset length
    else
      findMatchFrom data pos minMatchLen maxMatchLen stop (offset + 1) bestOff bestLen
  else (bestOff, bestLen)
termination_by stop - offset
decreasing_by all_goals omega

/-- `_find_match_lv1(data, pos, max_distance, min_match_len, max_match_len)`.
`start = max(0, pos - max_distance)` is Nat truncated subtraction here. -/
def find_match_lv1 (data : List Nat) (pos maxDistance minMatchLen maxMatchLen : Nat) :
    Option (Nat × Nat) :=
  if data.length < pos + minMatchLen then none
  else
    let start := pos - maxDistance
    let stop := min (pos - start + 1) (maxDistance + 1)
    let best := findMatchFrom data pos minMatchLen maxMatchLen stop 1 0 0
    if minMatchLen ≤ best.2 then some best else none

theorem find_match_lv1_minLen {data : List Nat} {pos maxDistance minMatchLen maxMatchLen o l : Nat}
    (h : find_match_lv1 data pos maxDistance minMatchLen maxMatchLen = some (o, l)) :
    minMatchLen ≤ l := by
  unfold find_match_lv1 at h
  split at h
  · exact absurd h (by simp)
  · simp only [] at h
    split at h
    · rename_i hle
      injection h with h2
      rw [h2] at hle
      exact hle
    · exact absurd h (by simp)

/-! ## Level-1 emitters (compress.py) -/

/-- `_emit_literals(output, literals)`: chunks of at most 32 literal bytes,
each preceded by the opcode `chunk_size - 1`. -/
def emit_literals (output literals : List Nat) : List Nat :=
  if 0 < literals.length then
    let chunkSize := min 32 literals.length
    emit_literals (output ++ (chunkSize - 1) :: literals.take chunkSize) (literals.drop chunkSize)
  else output
termination_by literals.length
decreasing_by simp; omega

/-- `_emit_match_lv1(output, offset, length)`. -/
def emit_match_lv1 (output : List Nat) (offset length : Nat) : List Nat :=
  let encodedOffset := offset - 1
  if length ≤ 8 then
    output ++ [((length - 2) <<< 5) ||| (encodedOffset >>> 8), encodedOffset &&& 255]
  else
    output ++ [224 ||| (encodedOffset >>> 8), (length - 9) &&& 255, encodedOffset &&& 255]

/-! ## Level-1 compressor (compress.py `_fastlz_compress_lv1`) -/

/-- The main `while pos < len(data)` loop of `_fastlz_compress_lv1`, carrying
`pos`, `anchor` and the output accumulated so far. -/
def compressLv1Loop (data : List Nat) (pos anchor : Nat) (output : List Nat) : List Nat :=
  if hpos : pos < data.length then
    match hm : find_match_lv1 data pos 8191 3 264 with
    | none => compressLv1Loop data (pos + 1) anchor output
    | some (matchOffset, matchLength) =>
      let output1 := if anchor < pos then emit_literals output (pySlice data anchor pos) else output
      let output2 := emit_match_lv1 output1 matchOffset matchLength
      compressLv1Loop data (pos + matchLength) (pos + matchLength) output2
  else
    if anchor < data.length then emit_literals output (data.drop anchor) else output
termination_by data.length - pos
decreasing_by
  · omega
  · have := find_match_lv1_minLen hm; omega

/-- `_fastlz_compress_lv1(data)`. -/
def fastlz_compress_lv1 (data : List Nat) : List Nat :=
  if data.length = 0 then [] else compressLv1Loop data 0 0 []

/-! One-step equations for `compressLv1Loop`, used to evaluate the
compressor on concrete inputs. -/

theorem compressLv1Loop_step_none {data : List Nat} {pos : Nat}
    (hm : find_match_lv1 data pos 8191 3 264 = none) (hpos : pos < data.length)
    (anchor : Nat) (out : List Nat) :
    compressLv1Loop data pos anchor out = compressLv1Loop data (pos + 1) anchor out := by
  rw [compressLv1Loop, dif_pos hpos]
  cases hm2 : find_match_lv1 data pos 8191 3 264 with
  | none => simp only []
  | some r => rw [hm] at hm2; exact absurd hm2 (by simp)

theorem compressLv1Loop_step_some {data : List Nat} {pos o l : Nat}
    (hm : find_match_lv1 data pos 8191 3 264 = some (o, l)) (hpos : pos < data.length)
    (anchor : Nat) (out : List Nat) :
    compressLv1Loop data pos anchor out =
      compressLv1Loop data (pos + l) (pos + l)
        (emit_match_lv1
          (if anchor < pos then emit_literals out (pySlice data anchor pos) else out) o l) := by
  rw [compressLv1Loop, dif_pos hpos]
  cases hm2 : find_match_lv1 data pos 8191 3 264 with
  | none => rw [hm] at hm2; exact absurd hm2 (by simp)
  | some r =>
    rw [hm] at hm2
    injection hm2 with h2
    cases h2
    simp only []

theorem compressLv1Loop_end {data : List Nat} {pos : Nat} (hpos : ¬ pos < data.length)
    (anchor : Nat) (out : List Nat) :
    compressLv1Loop data pos anchor out =
      if anchor < data.length then emit_literals out (data.drop anchor) else out := by
  rw [compressLv1Loop, dif_neg hpos]

/-- `compress(data, level)` from compress.py.  The `isinstance(data, bytes)`
guard is carried by the `List Nat` type of the embedding. -/
def compress (data : List Nat) (level : Nat) : Except PyError (List Nat) :=
  if level ≠ 1 ∧ level ≠ 2 then
    .error (.valueError "Compression level must be 1 or 2")
  else if data.length = 0 then
    (packU32 0).map (fun header => header ++ [(level - 1) <<< 5])
  else if level = 1 then
    let compressed := fastlz_compress_lv1 data
    (packU32 data.length).map (fun header =>
      if 0 < compressed.length then
        header ++ (((level - 1) <<< 5) ||| (compressed.getD 0 0 &&& 31)) :: compressed.drop 1
      else
        header ++ [(level - 1) <<< 5])
  else
    .error (.notImplementedError "Level 2 compression is not implemented")

/-! ## Level-1 decompressor (decompress.py `_fastlz_decompress_lv1`) -/

/-- The main `while True` loop of `_fastlz_decompress_lv1`: state is the
current opcode byte, the input cursor (pointing after that byte), the
pre-allocated output buffer and the output cursor. -/
def lv1Loop (datain : List Nat) (opcode0 datainIdx : Nat) (dataout : List Nat) (dataoutIdx : Nat) :
    Except PyError (List Nat) :=
  if opcode0 >>> 5 = 0 then
    -- literal run
    let run := 1 + opcode0
    let dataout2 := pySetSlice dataout dataoutIdx (dataoutIdx + run)
      (pySlice datain datainIdx (datainIdx + run))
    if h : datainIdx + run < datain.length then
      lv1Loop datain (datain.getD (datainIdx + run) 0) (datainIdx + run + 1) dataout2
        (dataoutIdx + run)
    else .ok dataout2
  else if opcode0 >>> 5 = 7 then
    -- long match
    match pyGetNat datain datainIdx with
    | .error e => .error e
    | .ok opcode1 =>
      match pyGetNat datain (datainIdx + 1) with
      | .error e => .error e
      | .ok opcode2 =>
        match memmove dataout dataoutIdx (((opcode0 &&& 31) <<< 8) + opcode2 + 1 : Nat)
            (9 + opcode1) with
        | .error e => .error e
        | .ok dataout2 =>
          if h : datainIdx + 2 < datain.length then
            lv1Loop datain (datain.getD (datainIdx + 2) 0) (datainIdx + 3) dataout2
              (dataoutIdx + (9 + opcode1))
          else .ok dataout2
  else
    -- short match
    match pyGetNat datain datainIdx with
    | .error e => .error e
    | .ok opcode1 =>
      match memmove dataout dataoutIdx (((opcode0 &&& 31) <<< 8) + opcode1 + 1 : Nat)
          (2 + (opcode0 >>> 5)) with
      | .error e => .error e
      | .ok dataout2 =>
        if h : datainIdx + 1 < datain.length then
          lv1Loop datain (datain.getD (datainIdx + 1) 0) (datainIdx + 2) dataout2
            (dataoutIdx + (2 + (opcode0 >>> 5)))
        else .ok dataout2
termination_by datain.length - datainIdx
decreasing_by all_goals omega

/-- `_fastlz_decompress_lv1(datain, doutlen)`. -/
def fastlz_decompress_lv1 (datain : List Nat) (doutlen : Nat) : Except PyError (List Nat) :=
  if doutlen = 0 then .ok []
  else
    match pyGetNat datain 0 with
    | .error e => .error e
    | .ok opcode0 => lv1Loop datain opcode0 1 (List.replicate doutlen 0) 0

/-! ## Level-2 decompressor (decompress.py `_fastlz_decompress_lv2`) -/

/-- The inner `while True` loop of the long-match branch: read length bytes
until one differs from 255, accumulating into the match length.  Returns the
accumulated length and the new input cursor. -/
def lv2LongLen (datain : List Nat) (datainIdx matchAcc : Nat) : Except PyError (Nat × Nat) :=
  if h : datainIdx < datain.length then
    let nn := datain.getD datainIdx 0
    if nn = 255 then lv2LongLen datain (datainIdx + 1) (matchAcc + nn)
    else .ok (matchAcc + nn, datainIdx + 1)
  else .error .indexError
termination_by datain.length - datainIdx
decreasing_by omega

theorem lv2LongLen_lt {datain : List Nat} {i acc m j : Nat}
    (h : lv2LongLen datain i acc = .ok (m, j)) : i < j := by
  suffices H : ∀ n i acc, datain.length - i = n → lv2LongLen datain i acc = .ok (m, j) → i < j from
    H _ i acc rfl h
  intro n
  induction n using Nat.strong_induction_on with
  | _ n ih =>
    intro i acc hn hok
    rw [lv2LongLen] at hok
    split at hok
    · rename_i hlt
      simp only [] at hok
      split at hok
      · have := ih (datain.length - (i + 1)) (by omega) (i + 1) _ rfl hok
        omega
      · cases hok; omega
    · exact absurd hok (by simp)

/-- `struct.unpack("=h", b)` on the (little-endian) reference platform:
native-endian signed 16-bit; `struct.error` unless exactly two bytes. -/
def unpackSigned16 (l : List Nat) : Except PyError Int :=
  if l.length = 2 then
    let u := l.getD 0 0 + 256 * l.getD 1 0
    .ok (if u < 32768 then (u : Int) else (u : Int) - 65536)
  else .error .structError

/-- The main `while True` loop of `_fastlz_decompress_lv2`. -/
def lv2Loop (datain : List Nat) (opcode0 datainIdx : Nat) (dataout : List Nat) (dataoutIdx : Nat) :
    Except PyError (List Nat) :=
  if opcode0 >>> 5 = 0 then
    -- literal run
    let run := 1 + (opcode0 &&& 31)
    let dataout2 := pySetSlice dataout dataoutIdx (dataoutIdx + run)
      (pySlice datain datainIdx (datainIdx + run))
    if h : datainIdx + run < datain.length then
      lv2Loop datain (datain.getD (datainIdx + run) 0) (datainIdx + run + 1) dataout2
        (dataoutIdx + run)
    else .ok dataout2
  else if opcode0 >>> 5 = 7 then
    -- long match
    match hL : lv2LongLen datain datainIdx 9 with
    | .error e => .error e
    | .ok (matchLen, idx1) =>
      match pyGetNat datain idx1 with
      | .error e => .error e
      | .ok b =>
        if ((opcode0 &&& 31) <<< 8) + b = 8191 then
          -- match from 16-bit distance (signed, native byte order)
          match unpackSigned16 (pySlice datain (idx1 + 1) (idx1 + 1 + 2)) with
          | .error e => .error e
          | .ok s =>
            match memmove dataout dataoutIdx (((((opcode0 &&& 31) <<< 8) + b : Nat) : Int) + s)
                matchLen with
            | .error e => .error e
            | .ok dataout2 =>
              if h : idx1 + 3 < datain.length then
                lv2Loop datain (datain.getD (idx1 + 3) 0) (idx1 + 4) dataout2
                  (dataoutIdx + matchLen)
              else .ok dataout2
        else
          match memmove dataout dataoutIdx (((opcode0 &&& 31) <<< 8) + b : Nat) matchLen with
          | .error e => .error e
          | .ok dataout2 =>
            if h : idx1 + 1 < datain.length then
              lv2Loop datain (datain.getD (idx1 + 1) 0) (idx1 + 2) dataout2
                (dataoutIdx + matchLen)
            else .ok dataout2
  else
    -- short match
    match pyGetNat datain datainIdx with
    | .error e => .error e
    | .ok b =>
      if ((opcode0 &&& 31) <<< 8) + b = 8191 then
        -- match from 16-bit distance (big-endian, unsigned)
        let ofsBytes := pySlice datain (datainIdx + 1) (datainIdx + 1 + 2)
        match pyGetNat ofsBytes 0 with
        | .error e => .error e
        | .ok b0 =>
          match pyGetNat ofsBytes 1 with
          | .error e => .error e
          | .ok b1 =>
            match memmove dataout dataoutIdx
                ((((opcode0 &&& 31) <<< 8) + b + (b0 <<< 8) + b1 : Nat))
                (2 + (opcode0 >>> 5)) with
            | .error e => .error e
            | .ok dataout2 =>
              if h : datainIdx + 3 < datain.length then
                lv2Loop datain (datain.getD (datainIdx + 3) 0) (datainIdx + 4) dataout2
                  (dataoutIdx + (2 + (opcode0 >>> 5)))
              else .ok dataout2
      else
        match memmove dataout dataoutIdx (((opcode0 &&& 31) <<< 8) + b : Nat)
            (2 + (opcode0 >>> 5)) with
        | .error e => .error e
        | .ok dataout2 =>
          if h : datainIdx + 1 < datain.length then
            lv2Loop datain (datain.getD (datainIdx + 1) 0) (datainIdx + 2) dataout2
              (dataoutIdx + (2 + (opcode0 >>> 5)))
          else .ok dataout2
termination_by datain.length - datainIdx
decreasing_by
  all_goals first
    | omega
    | (have hd2 := lv2LongLen_lt hL; omega)

/-- `_fastlz_decompress_lv2(datain, doutlen)`. -/
def fastlz_decompress_lv2 (datain : List Nat) (doutlen : Nat) : Except PyError (List Nat) :=
  if doutlen = 0 then .ok []
  else
    match pyGetNat datain 0 with
    | .error e => .error e
    | .ok opcode0 => lv2Loop datain opcode0 1 (List.replicate doutlen 0) 0

/-! ## Instrumented decoders

`lv1LoopTr`/`lv2LoopTr` mirror `lv1Loop`/`lv2Loop` line by line; in addition
the `ok` payload carries the final output cursor and the second component
records every `_memmove` call as `(dataout_idx, offset, match_len)` — the
call is recorded even when `_memmove` itself raises.  The `..._eq_tr`
theorems below prove that erasing the instrumentation gives back the plain
decoders. -/

def lv1LoopTr (datain : List Nat) (opcode0 datainIdx : Nat) (dataout : List Nat)
    (dataoutIdx : Nat) : Except PyError (List Nat × Nat) × List (Nat × Nat × Nat) :=
  if opcode0 >>> 5 = 0 then
    let run := 1 + opcode0
    let dataout2 := pySetSlice dataout dataoutIdx (dataoutIdx + run)
      (pySlice datain datainIdx (datainIdx + run))
    if h : datainIdx + run < datain.length then
      lv1LoopTr datain (datain.getD (datainIdx + run) 0) (datainIdx + run + 1) dataout2
        (dataoutIdx + run)
    else (.ok (dataout2, dataoutIdx + run), [])
  else if opcode0 >>> 5 = 7 then
    match pyGetNat datain datainIdx with
    | .error e => (.error e, [])
    | .ok opcode1 =>
      match pyGetNat datain (datainIdx + 1) with
      | .error e => (.error e, [])
      | .ok opcode2 =>
        match memmove dataout dataoutIdx (((opcode0 &&& 31) <<< 8) + opcode2 + 1 : Nat)
            (9 + opcode1) with
        | .error e =>
          (.error e, [(dataoutIdx, ((opcode0 &&& 31) <<< 8) + opcode2 + 1, 9 + opcode1)])
        | .ok dataout2 =>
          if h : datainIdx + 2 < datain.length then
            let r := lv1LoopTr datain (datain.getD (datainIdx + 2) 0) (datainIdx + 3) dataout2
              (dataoutIdx + (9 + opcode1))
            (r.1, (dataoutIdx, ((opcode0 &&& 31) <<< 8) + opcode2 + 1, 9 + opcode1) :: r.2)
          else
            (.ok (dataout2, dataoutIdx + (9 + opcode1)),
              [(dataoutIdx, ((opcode0 &&& 31) <<< 8) + opcode2 + 1, 9 + opcode1)])
  else
    match pyGetNat datain datainIdx with
    | .error e => (.error e, [])
    | .ok opcode1 =>
      match memmove dataout dataoutIdx (((opcode0 &&& 31) <<< 8) + opcode1 + 1 : Nat)
          (2 + (opcode0 >>> 5)) with
      | .error e =>
        (.error e, [(dataoutIdx, ((opcode0 &&& 31) <<< 8) + opcode1 + 1, 2 + (opcode0 >>> 5))])
      | .ok dataout2 =>
        if h : datainIdx + 1 < datain.length then
          let r := lv1LoopTr datain (datain.getD (datainIdx + 1) 0) (datainIdx + 2) dataout2
            (dataoutIdx + (2 + (opcode0 >>> 5)))
          (r.1, (dataoutIdx, ((opcode0 &&& 31) <<< 8) + opcode1 + 1, 2 + (opcode0 >>> 5)) :: r.2)
        else
          (.ok (dataout2, dataoutIdx + (2 + (opcode0 >>> 5))),
            [(dataoutIdx, ((opcode0 &&& 31) <<< 8) + opcode1 + 1, 2 + (opcode0 >>> 5))])
termination_by datain.length - datainIdx
decreasing_by all_goals omega

/-- Instrumented `_fastlz_decompress_lv1`. -/
def fastlz_decompress_lv1_tr (datain : List Nat) (doutlen : Nat) :
    Except PyError (List Nat × Nat) × List (Nat × Nat × Nat) :=
  if doutlen = 0 then (.ok ([], 0), [])
  else
    match pyGetNat datain 0 with
    | .error e => (.error e, [])
    | .ok opcode0 => lv1LoopTr datain opcode0 1 (List.replicate doutlen 0) 0

theorem lv1Loop_eq_tr (datain : List Nat) :
    ∀ n opcode0 datainIdx dataout dataoutIdx, datain.length - datainIdx = n →
    lv1Loop datain opcode0 datainIdx dataout dataoutIdx =
      ((lv1LoopTr datain opcode0 datainIdx dataout dataoutIdx).1).map Prod.fst := by
  intro n
  induction n using Nat.strong_induction_on with
  | _ n ih =>
    intro opcode0 datainIdx dataout dataoutIdx hn
    rw [lv1Loop, lv1LoopTr]
    by_cases h0 : opcode0 >>> 5 = 0
    · simp only [h0, if_true]
      by_cases hlt : datainIdx + (1 + opcode0) < datain.length
      · simp only [hlt, dif_pos]
        exact ih (datain.length - (datainIdx + (1 + opcode0) + 1)) (by omega) _ _ _ _ rfl
      · simp only [hlt, dif_neg, not_false_iff, Except.map]
    · simp only [h0, if_false]
      by_cases h7 : opcode0 >>> 5 = 7
      · simp only [h7, if_true]
        cases pyGetNat datain datainIdx with
        | error e => simp [Except.map]
        | ok opcode1 =>
          simp only []
          cases pyGetNat datain (datainIdx + 1) with
          | error e => simp [Except.map]
          | ok opcode2 =>
            simp only []
            split
            · simp [Except.map]
            · by_cases hlt : datainIdx + 2 < datain.length
              · simp only [hlt, dif_pos]
                exact ih (datain.length - (datainIdx + 3)) (by omega) _ _ _ _ rfl
              · simp only [hlt, dif_neg, not_false_iff, Except.map]
      · simp only [h7, if_false]
        cases pyGetNat datain datainIdx with
        | error e => simp [Except.map]
        | ok opcode1 =>
          simp only []
          split
          · simp [Except.map]
          · by_cases hlt : datainIdx + 1 < datain.length
            · simp only [hlt, dif_pos]
              exact ih (datain.length - (datainIdx + 2)) (by omega) _ _ _ _ rfl
            · simp only [hlt, dif_neg, not_false_iff, Except.map]

theorem fastlz_decompress_lv1_eq_tr (datain : List Nat) (doutlen : Nat) :
    fastlz_decompress_lv1 datain doutlen =
      ((fastlz_decompress_lv1_tr datain doutlen).1).map Prod.fst := by
  unfold fastlz_decompress_lv1 fastlz_decompress_lv1_tr
  by_cases h : doutlen = 0
  · simp [h, Except.map]
  · simp only [h, if_false]
    cases pyGetNat datain 0 with
    | error e => simp [Except.map]
    | ok opcode0 => exact lv1Loop_eq_tr datain _ _ _ _ _ rfl

/-- Instrumented mirror of `lv2Loop`; see `lv1LoopTr`. -/
def lv2LoopTr (datain : List Nat) (opcode0 datainIdx : Nat) (dataout : List Nat)
    (dataoutIdx : Nat) : Except PyError (List Nat × Nat) × List (Nat × Int × Nat) :=
  if opcode0 >>> 5 = 0 then
    let run := 1 + (opcode0 &&& 31)
    let dataout2 := pySetSlice dataout dataoutIdx (dataoutIdx + run)
      (pySlice datain datainIdx (datainIdx + run))
    if h : datainIdx + run < datain.length then
      lv2LoopTr datain (datain.getD (datainIdx + run) 0) (datainIdx + run + 1) dataout2
        (dataoutIdx + run)
    else (.ok (dataout2, dataoutIdx + run), [])
  else if opcode0 >>> 5 = 7 then
    match hL : lv2LongLen datain datainIdx 9 with
    | .error e => (.error e, [])
    | .ok (matchLen, idx1) =>
      match pyGetNat datain idx1 with
      | .error e => (.error e, [])
      | .ok b =>
        if ((opcode0 &&& 31) <<< 8) + b = 8191 then
          match unpackSigned16 (pySlice datain (idx1 + 1) (idx1 + 1 + 2)) with
          | .error e => (.error e, [])
          | .ok s =>
            match memmove dataout dataoutIdx (((((opcode0 &&& 31) <<< 8) + b : Nat) : Int) + s)
                matchLen with
            | .error e =>
              (.error e, [(dataoutIdx, ((((opcode0 &&& 31) <<< 8) + b : Nat) : Int) + s, matchLen)])
            | .ok dataout2 =>
              if h : idx1 + 3 < datain.length then
                let r := lv2LoopTr datain (datain.getD (idx1 + 3) 0) (idx1 + 4) dataout2
                  (dataoutIdx + matchLen)
                (r.1, (dataoutIdx, ((((opcode0 &&& 31) <<< 8) + b : Nat) : Int) + s, matchLen) :: r.2)
              else
                (.ok (dataout2, dataoutIdx + matchLen),
                  [(dataoutIdx, ((((opcode0 &&& 31) <<< 8) + b : Nat) : Int) + s, matchLen)])
        else
          match memmove dataout dataoutIdx (((opcode0 &&& 31) <<< 8) + b : Nat) matchLen with
          | .error e =>
            (.error e, [(dataoutIdx, ((((opcode0 &&& 31) <<< 8) + b : Nat) : Int), matchLen)])
          | .ok dataout2 =>
            if h : idx1 + 1 < datain.length then
              let r := lv2LoopTr datain (datain.getD (idx1 + 1) 0) (idx1 + 2) dataout2
                (dataoutIdx + matchLen)
              (r.1, (dataoutIdx, ((((opcode0 &&& 31) <<< 8) + b : Nat) : Int), matchLen) :: r.2)
            else
              (.ok (dataout2, dataoutIdx + matchLen),
                [(dataoutIdx, ((((opcode0 &&& 31) <<< 8) + b : Nat) : Int), matchLen)])
  else
    match pyGetNat datain datainIdx with
    | .error e => (.error e, [])
    | .ok b =>
      if ((opcode0 &&& 31) <<< 8) + b = 8191 then
        let ofsBytes := pySlice datain (datainIdx + 1) (datainIdx + 1 + 2)
        match pyGetNat ofsBytes 0 with
        | .error e => (.error e, [])
        | .ok b0 =>
          match pyGetNat ofsBytes 1 with
          | .error e => (.error e, [])
          | .ok b1 =>
            match memmove dataout dataoutIdx
                ((((opcode0 &&& 31) <<< 8) + b + (b0 <<< 8) + b1 : Nat))
                (2 + (opcode0 >>> 5)) with
            | .error e =>
              (.error e,
                [(dataoutIdx, ((((opcode0 &&& 31) <<< 8) + b + (b0 <<< 8) + b1 : Nat) : Int),
                  2 + (opcode0 >>> 5))])
            | .ok dataout2 =>
              if h : datainIdx + 3 < datain.length then
                let r := lv2LoopTr datain (datain.getD (datainIdx + 3) 0) (datainIdx + 4) dataout2
                  (dataoutIdx + (2 + (opcode0 >>> 5)))
                (r.1, (dataoutIdx, ((((opcode0 &&& 31) <<< 8) + b + (b0 <<< 8) + b1 : Nat) : Int),
                  2 + (opcode0 >>> 5)) :: r.2)
              else
                (.ok (dataout2, dataoutIdx + (2 + (opcode0 >>> 5))),
                  [(dataoutIdx, ((((opcode0 &&& 31) <<< 8) + b + (b0 <<< 8) + b1 : Nat) : Int),
                    2 + (opcode0 >>> 5))])
      else
        match memmove dataout dataoutIdx (((opcode0 &&& 31) <<< 8) + b : Nat)
            (2 + (opcode0 >>> 5)) with
        | .error e =>
          (.error e, [(dataoutIdx, ((((opcode0 &&& 31) <<< 8) + b : Nat) : Int), 2 + (opcode0 >>> 5))])
        | .ok dataout2 =>
          if h : datainIdx + 1 < datain.length then
            let r := lv2LoopTr datain (datain.getD (datainIdx + 1) 0) (datainIdx + 2) dataout2
              (dataoutIdx + (2 + (opcode0 >>> 5)))
            (r.1, (dataoutIdx, ((((opcode0 &&& 31) <<< 8) + b : Nat) : Int),
              2 + (opcode0 >>> 5)) :: r.2)
          else
            (.ok (dataout2, dataoutIdx + (2 + (opcode0 >>> 5))),
              [(dataoutIdx, ((((opcode0 &&& 31) <<< 8) + b : Nat) : Int), 2 + (opcode0 >>> 5))])
termination_by datain.length - datainIdx
decreasing_by
  all_goals first
    | omega
    | (have hd2 := lv2LongLen_lt hL; omega)

theorem lv2Loop_eq_tr (datain : List Nat) :
    ∀ n opcode0 datainIdx dataout dataoutIdx, datain.length - datainIdx = n →
    lv2Loop datain opcode0 datainIdx dataout dataoutIdx =
      ((lv2LoopTr datain opcode0 datainIdx dataout dataoutIdx).1).map Prod.fst := by
  intro n
  induction n using Nat.strong_induction_on with
  | _ n ih =>
    intro opcode0 datainIdx dataout dataoutIdx hn
    rw [lv2Loop, lv2LoopTr]
    by_cases h0 : opcode0 >>> 5 = 0
    · simp only [h0, if_true]
      by_cases hlt : datainIdx + (1 + (opcode0 &&& 31)) < datain.length
      · simp only [hlt, dif_pos]
        exact ih (datain.length - (datainIdx + (1 + (opcode0 &&& 31)) + 1)) (by omega) _ _ _ _ rfl
      · simp only [hlt, dif_neg, not_false_iff, Except.map]
    · simp only [h0, if_false]
      by_cases h7 : opcode0 >>> 5 = 7
      · simp only [h7, if_true]
        cases hL : lv2LongLen datain datainIdx 9 with
        | error e => simp [Except.map]
        | ok p =>
          obtain ⟨matchLen, idx1⟩ := p
          simp only []
          cases pyGetNat datain idx1 with
          | error e => simp [Except.map]
          | ok b =>
            simp only []
            by_cases hesc : ((opcode0 &&& 31) <<< 8) + b = 8191
            · simp only [hesc, if_true]
              cases unpackSigned16 (pySlice datain (idx1 + 1) (idx1 + 1 + 2)) with
              | error e => simp [Except.map]
              | ok s =>
                simp only []
                split
                · simp [Except.map]
                · by_cases hlt : idx1 + 3 < datain.length
                  · simp only [hlt, dif_pos]
                    exact ih (datain.length - (idx1 + 4)) (by have := lv2LongLen_lt hL; omega)
                      _ _ _ _ rfl
                  · simp only [hlt, dif_neg, not_false_iff, Except.map]
            · simp only [hesc, if_false]
              split
              · simp [Except.map]
              · by_cases hlt : idx1 + 1 < datain.length
                · simp only [hlt, dif_pos]
                  exact ih (datain.length - (idx1 + 2)) (by have := lv2LongLen_lt hL; omega)
                    _ _ _ _ rfl
                · simp only [hlt, dif_neg, not_false_iff, Except.map]
      · simp only [h7, if_false]
        cases pyGetNat datain datainIdx with
        | error e => simp [Except.map]
        | ok b =>
          simp only []
          by_cases hesc : ((opcode0 &&& 31) <<< 8) + b = 8191
          · simp only [hesc, if_true]
            cases pyGetNat (pySlice datain (datainIdx + 1) (datainIdx + 1 + 2)) 0 with
            | error e => simp [Except.map]
            | ok b0 =>
              simp only []
              cases pyGetNat (pySlice datain (datainIdx + 1) (datainIdx + 1 + 2)) 1 with
              | error e => simp [Except.map]
              | ok b1 =>
                simp only []
                split
                · simp [Except.map]
                · by_cases hlt : datainIdx + 3 < datain.length
                  · simp only [hlt, dif_pos]
                    exact ih (datain.length - (datainIdx + 4)) (by omega) _ _ _ _ rfl
                  · simp only [hlt, dif_neg, not_false_iff, Except.map]
          · simp only [hesc, if_false]
            split
            · simp [Except.map]
            · by_cases hlt : datainIdx + 1 < datain.length
              · simp only [hlt, dif_pos]
                exact ih (datain.length - (datainIdx + 2)) (by omega) _ _ _ _ rfl
              · simp only [hlt, dif_neg, not_false_iff, Except.map]

/-- Instrumented `_fastlz_decompress_lv2`. -/
def fastlz_decompress_lv2_tr (datain : List Nat) (doutlen : Nat) :
    Except PyError (List Nat × Nat) × List (Nat × Int × Nat) :=
  if doutlen = 0 then (.ok ([], 0), [])
  else
    match pyGetNat datain 0 with
    | .error e => (.error e, [])
    | .ok opcode0 => lv2LoopTr datain opcode0 1 (List.replicate doutlen 0) 0

theorem fastlz_decompress_lv2_eq_tr (datain : List Nat) (doutlen : Nat) :
    fastlz_decompress_lv2 datain doutlen =
      ((fastlz_decompress_lv2_tr datain doutlen).1).map Prod.fst := by
  unfold fastlz_decompress_lv2 fastlz_decompress_lv2_tr
  by_cases h : doutlen = 0
  · simp [h, Except.map]
  · simp only [h, if_false]
    cases pyGetNat datain 0 with
    | error e => simp [Except.map]
    | ok opcode0 => exact lv2Loop_eq_tr datain _ _ _ _ _ rfl

/-- `decompress(datain)` from decompress.py.  The `doutlen / 256` comparison
uses Python true division; it is exact on the values involved, so it is
modelled with rational division. -/
def decompress (datain : List Nat) : Except PyError (List Nat) :=
  if datain.length < 4 then .error (.valueError "No headerlen present")
  else
    let doutlen := leU32 (pySlice datain 0 4)
    if ((doutlen : ℚ) / 256) > (datain.length : ℚ) then .error (.valueError "Bad headerlen")
    else
      match pyGetNat datain 4 with
      | .error e => .error e
      | .ok b4 =>
        if b4 >>> 5 = 0 then fastlz_decompress_lv1 (datain.drop 4) doutlen
        else if b4 >>> 5 = 1 then fastlz_decompress_lv2 (datain.drop 4) doutlen
        else .error (.valueError ("Unknown compression level (" ++ toString (b4 >>> 5) ++ ")"))

/-! ## Helper lemmas -/

theorem getD_take {l : List Nat} {n j : Nat} (h : j < n) :
    (l.take n).getD j 0 = l.getD j 0 := by
  rw [List.getD_eq_getElem?_getD, List.getD_eq_getElem?_getD, List.getElem?_take]
  simp [h]

theorem badlen_iff (N L : Nat) : ((N : ℚ) / 256 > (L : ℚ)) ↔ 256 * L < N := by
  rw [gt_iff_lt, lt_div_iff (by norm_num : (0:ℚ) < 256)]
  constructor
  · intro h
    have h2 : ((256 : ℚ) * L) < N := by linarith
    exact_mod_cast h2
  · intro h
    have h2 : ((256 : ℚ) * L) < N := by exact_mod_cast h
    linarith

/-! ## Error classification: the level decoders raise only
`IndexError`/`struct.error`, never `ValueError`. -/

theorem pyGetNat_error {l : List Nat} {i : Nat} {e : PyError}
    (h : pyGetNat l i = .error e) : e = .indexError := by
  unfold pyGetNat at h
  split at h
  · exact absurd h (by simp)
  · injection h with h2; exact h2.symm

theorem pyGet_error {l : List Nat} {i : Int} {e : PyError}
    (h : pyGet l i = .error e) : e = .indexError := by
  unfold pyGet at h
  split at h
  · exact absurd h (by simp)
  · injection h with h2; exact h2.symm

theorem pySet_error {l : List Nat} {i : Int} {v : Nat} {e : PyError}
    (h : pySet l i v = .error e) : e = .indexError := by
  unfold pySet at h
  split at h
  · exact absurd h (by simp)
  · injection h with h2; exact h2.symm

theorem memmoveFrom_error {stidx : Nat} {offset : Int} {e : PyError} :
    ∀ {n data i}, memmoveFrom stidx offset data i n = .error e → e = .indexError := by
  intro n
  induction n with
  | zero => intro data i h; exact absurd h (by simp [memmoveFrom])
  | succ n ih =>
    intro data i h
    rw [memmoveFrom] at h
    cases hg : pyGet data ((stidx : Int) - offset + i) with
    | error e2 =>
      rw [hg] at h
      simp only [] at h
      injection h with h2
      exact h2.symm.trans (pyGet_error hg)
    | ok v =>
      rw [hg] at h
      simp only [] at h
      cases hs : pySet data ((stidx : Int) + i) v with
      | error e2 =>
        rw [hs] at h
        simp only [] at h
        injection h with h2
        exact h2.symm.trans (pySet_error hs)
      | ok d2 =>
        rw [hs] at h
        simp only [] at h
        exact ih h

theorem memmove_error {data : List Nat} {stidx : Nat} {offset : Int} {mlen : Nat} {e : PyError}
    (h : memmove data stidx offset mlen = .error e) : e = .indexError :=
  memmoveFrom_error h

theorem unpackSigned16_error {l : List Nat} {e : PyError}
    (h : unpackSigned16 l = .error e) : e = .structError := by
  unfold unpackSigned16 at h
  split at h
  · exact absurd h (by simp)
  · injection h with h2; exact h2.symm

theorem lv2LongLen_error {datain : List Nat} {i acc : Nat} {e : PyError}
    (h : lv2LongLen datain i acc = .error e) : e = .indexError := by
  suffices H : ∀ n i acc, datain.length - i = n → lv2LongLen datain i acc = .error e →
      e = .indexError from H _ i acc rfl h
  intro n
  induction n using Nat.strong_induction_on with
  | _ n ih =>
    intro i acc hn h
    rw [lv2LongLen] at h
    split at h
    · simp only [] at h
      split at h
      · exact ih (datain.length - (i + 1)) (by rename_i hlt _; omega) (i + 1) _ rfl h
      · exact absurd h (by simp)
    · injection h with h2; exact h2.symm

/-- Errors that the pure level decoders can produce. -/
def decodeErr (e : PyError) : Prop := e = .indexError ∨ e = .structError

theorem lv1Loop_error {datain : List Nat} {e : PyError} :
    ∀ n {opcode0 datainIdx dataout dataoutIdx}, datain.length - datainIdx = n →
      lv1Loop datain opcode0 datainIdx dataout dataoutIdx = .error e → decodeErr e := by
  intro n
  induction n using Nat.strong_induction_on with
  | _ n ih =>
    intro opcode0 datainIdx dataout dataoutIdx hn h
    rw [lv1Loop] at h
    by_cases h0 : opcode0 >>> 5 = 0
    · simp only [h0, if_true] at h
      split at h
      · exact ih (datain.length - (datainIdx + (1 + opcode0) + 1)) (by rename_i hlt; omega)
          rfl h
      · exact absurd h (by simp)
    · simp only [h0, if_false] at h
      by_cases h7 : opcode0 >>> 5 = 7
      · simp only [h7, if_true] at h
        cases hg1 : pyGetNat datain datainIdx with
        | error e2 =>
          rw [hg1] at h; simp only [] at h
          injection h with h2
          exact h2 ▸ Or.inl (pyGetNat_error hg1)
        | ok opcode1 =>
          rw [hg1] at h; simp only [] at h
          cases hg2 : pyGetNat datain (datainIdx + 1) with
          | error e2 =>
            rw [hg2] at h; simp only [] at h
            injection h with h2
            exact h2 ▸ Or.inl (pyGetNat_error hg2)
          | ok opcode2 =>
            rw [hg2] at h; simp only [] at h
            split at h
            · rename_i hmm
              injection h with h2
              exact h2 ▸ Or.inl (memmove_error hmm)
            · split at h
              · exact ih (datain.length - (datainIdx + 3)) (by rename_i hlt; omega) rfl h
              · exact absurd h (by simp)
      · simp only [h7, if_false] at h
        cases hg1 : pyGetNat datain datainIdx with
        | error e2 =>
          rw [hg1] at h; simp only [] at h
          injection h with h2
          exact h2 ▸ Or.inl (pyGetNat_error hg1)
        | ok opcode1 =>
          rw [hg1] at h; simp only [] at h
          split at h
          · rename_i hmm
            injection h with h2
            exact h2 ▸ Or.inl (memmove_error hmm)
          · split at h
            · exact ih (datain.length - (datainIdx + 2)) (by rename_i hlt; omega) rfl h
            · exact absurd h (by simp)

theorem fastlz_decompress_lv1_error {datain : List Nat} {doutlen : Nat} {e : PyError}
    (h : fastlz_decompress_lv1 datain doutlen = .error e) : decodeErr e := by
  unfold fastlz_decompress_lv1 at h
  split at h
  · exact absurd h (by simp)
  · cases hg : pyGetNat datain 0 with
    | error e2 =>
      rw [hg] at h; simp only [] at h
      injection h with h2
      exact h2 ▸ Or.inl (pyGetNat_error hg)
    | ok opcode0 =>
      rw [hg] at h; simp only [] at h
      exact lv1Loop_error _ rfl h

theorem lv2Loop_error {datain : List Nat} {e : PyError} :
    ∀ n {opcode0 datainIdx dataout dataoutIdx}, datain.length - datainIdx = n →
      lv2Loop datain opcode0 datainIdx dataout dataoutIdx = .error e → decodeErr e := by
  intro n
  induction n using Nat.strong_induction_on with
  | _ n ih =>
    intro opcode0 datainIdx dataout dataoutIdx hn h
    rw [lv2Loop] at h
    by_cases h0 : opcode0 >>> 5 = 0
    · simp only [h0, if_true] at h
      split at h
      · exact ih (datain.length - (datainIdx + (1 + (opcode0 &&& 31)) + 1))
          (by rename_i hlt; omega) rfl h
      · exact absurd h (by simp)
    · simp only [h0, if_false] at h
      by_cases h7 : opcode0 >>> 5 = 7
      · simp only [h7, if_true] at h
        cases hL : lv2LongLen datain datainIdx 9 with
        | error e2 =>
          rw [hL] at h; simp only [] at h
          injection h with h2
          exact h2 ▸ Or.inl (lv2LongLen_error hL)
        | ok p =>
          obtain ⟨matchLen, idx1⟩ := p
          rw [hL] at h; simp only [] at h
          cases hg : pyGetNat datain idx1 with
          | error e2 =>
            rw [hg] at h; simp only [] at h
            injection h with h2
            exact h2 ▸ Or.inl (pyGetNat_error hg)
          | ok b =>
            rw [hg] at h; simp only [] at h
            split at h
            · cases hu : unpackSigned16 (pySlice datain (idx1 + 1) (idx1 + 1 + 2)) with
              | error e2 =>
                rw [hu] at h; simp only [] at h
                injection h with h2
                exact h2 ▸ Or.inr (unpackSigned16_error hu)
              | ok s =>
                rw [hu] at h; simp only [] at h
                split at h
                · rename_i hmm
                  injection h with h2
                  exact h2 ▸ Or.inl (memmove_error hmm)
                · split at h
                  · exact ih (datain.length - (idx1 + 4))
                      (by have := lv2LongLen_lt hL; rename_i hlt; omega) rfl h
                  · exact absurd h (by simp)
            · split at h
              · rename_i hmm
                injection h with h2
                exact h2 ▸ Or.inl (memmove_error hmm)
              · split at h
                · exact ih (datain.length - (idx1 + 2))
                    (by have := lv2LongLen_lt hL; rename_i hlt; omega) rfl h
                · exact absurd h (by simp)
      · simp only [h7, if_false] at h
        cases hg : pyGetNat datain datainIdx with
        | error e2 =>
          rw [hg] at h; simp only [] at h
          injection h with h2
          exact h2 ▸ Or.inl (pyGetNat_error hg)
        | ok b =>
          rw [hg] at h; simp only [] at h
          split at h
          · cases hg0 : pyGetNat (pySlice datain (datainIdx + 1) (datainIdx + 1 + 2)) 0 with
            | error e2 =>
              rw [hg0] at h; simp only [] at h
              injection h with h2
              exact h2 ▸ Or.inl (pyGetNat_error hg0)
            | ok b0 =>
              rw [hg0] at h; simp only [] at h
              cases hg1 : pyGetNat (pySlice datain (datainIdx + 1) (datainIdx + 1 + 2)) 1 with
              | error e2 =>
                rw [hg1] at h; simp only [] at h
                injection h with h2
                exact h2 ▸ Or.inl (pyGetNat_error hg1)
              | ok b1 =>
                rw [hg1] at h; simp only [] at h
                split at h
                · rename_i hmm
                  injection h with h2
                  exact h2 ▸ Or.inl (memmove_error hmm)
                · split at h
                  · exact ih (datain.length - (datainIdx + 4)) (by rename_i hlt; omega) rfl h
                  · exact absurd h (by simp)
          · split at h
            · rename_i hmm
              injection h with h2
              exact h2 ▸ Or.inl (memmove_error hmm)
            · split at h
              · exact ih (datain.length - (datainIdx + 2)) (by rename_i hlt; omega) rfl h
              · exact absurd h (by simp)

theorem fastlz_decompress_lv2_error {datain : List Nat} {doutlen : Nat} {e : PyError}
    (h : fastlz_decompress_lv2 datain doutlen = .error e) : decodeErr e := by
  unfold fastlz_decompress_lv2 at h
  split at h
  · exact absurd h (by simp)
  · cases hg : pyGetNat datain 0 with
    | error e2 =>
      rw [hg] at h; simp only [] at h
      injection h with h2
      exact h2 ▸ Or.inl (pyGetNat_error hg)
    | ok opcode0 =>
      rw [hg] at h; simp only [] at h
      exact lv2Loop_error _ rfl h

/-! ## Claim C6: `_memmove` is byte-serial -/

/-- **C6** — The overlap-copy primitive is byte-serial: for every buffer,
destination index `d`, backward distance `δ ≥ 1` (with `δ ≤ d` and
`d + ℓ` within the buffer, so that the Python loop neither wraps a negative
index nor raises), after the copy the byte at `d + i` equals the pre-copy
byte at `d - δ + (i % δ)` for every `i < ℓ`; in particular `δ = 1`
replicates the byte at `d - 1` exactly `ℓ` times. -/
theorem c6_memmove_byte_serial (data : List Nat) (d δ ℓ : Nat)
    (h1 : 1 ≤ δ) (h2 : δ ≤ d) (h3 : d + ℓ ≤ data.length) :
    ∃ res, memmove data d ((δ : Nat) : Int) ℓ = .ok res ∧
      res.length = data.length ∧
      (∀ i, i < ℓ → res.getD (d + i) 0 = data.getD (d - δ + i % δ) 0) ∧
      (δ = 1 → ∀ i, i < ℓ → res.getD (d + i) 0 = data.getD (d - 1) 0) := by
  have hd : d ≤ data.length := by omega
  have hDlen : (data.take d).length = d := by simp; omega
  have hrest : ℓ ≤ (data.drop d).length := by simp; omega
  have hspec := @memmove_ok (data.take d) (data.drop d) δ ℓ h1 (by omega) hrest
  rw [hDlen, List.take_append_drop] at hspec
  have hslen : (serialExt (data.take d) (d - δ) ℓ).length = d + ℓ := by
    rw [serialExt_length, hDlen]
  have hmod : ∀ i, i < ℓ →
      (serialExt (data.take d) (d - δ) ℓ ++ (data.drop d).drop ℓ).getD (d + i) 0 =
        data.getD (d - δ + i % δ) 0 := by
    intro i hi
    rw [List.getD_append _ _ _ _ (by omega)]
    have hsrc : d - δ < (data.take d).length := by omega
    have := serialExt_getD_mod (data.take d) (d - δ) hsrc i ℓ hi
    rw [hDlen] at this
    rw [this]
    have hδ : d - (d - δ) = δ := by omega
    rw [hδ]
    exact getD_take (by have := Nat.mod_lt i (show 0 < δ by omega); omega)
  refine ⟨_, hspec, ?_, hmod, ?_⟩
  · simp only [List.length_append, hslen, List.length_drop]
    omega
  · intro hδ1 i hi
    rw [hmod i hi, hδ1]
    simp [Nat.mod_one]

/-- Witness for C6 at a concrete overlapping copy
(`data = [1,2,9,9,9]`, `d = 2`, `δ = 2`, `ℓ = 3`). -/
theorem c6_witness :
    ∃ res, memmove [1, 2, 9, 9, 9] 2 ((2 : Nat) : Int) 3 = .ok res ∧
      res.length = [1, 2, 9, 9, 9].length ∧
      (∀ i, i < 3 → res.getD (2 + i) 0 = [1, 2, 9, 9, 9].getD (2 - 2 + i % 2) 0) ∧
      (2 = 1 → ∀ i, i < 3 → res.getD (2 + i) 0 = [1, 2, 9, 9, 9].getD (2 - 1) 0) :=
  c6_memmove_byte_serial [1, 2, 9, 9, 9] 2 2 3 (by norm_num) (by norm_num) (by simp)

/-! ## Claim C2: `compress(data, 2)` -/

/-- **C2 counterexample** — the claim asserts that `compress(data, 2)` raises
for *every* `data`, including `b""`; but on empty input the code returns a
5-byte frame (with the level-2 tag `0x20` in byte 4) before reaching the
level dispatch. -/
theorem c2_counterexample : compress [] 2 = .ok [0, 0, 0, 0, 32] := by rfl

/-- **C2 (amended)** — for every *non-empty* `data`, `compress(data, 2)`
raises `NotImplementedError("Level 2 compression is not implemented")`. -/
theorem c2_level2_not_implemented (data : List Nat) (h : data ≠ []) :
    compress data 2 = .error (.notImplementedError "Level 2 compression is not implemented") := by
  unfold compress
  have h3 : ¬ (data.length = 0) := by simpa using h
  norm_num [h3]

theorem c2_witness :
    compress [0] 2 = .error (.notImplementedError "Level 2 compression is not implemented") :=
  c2_level2_not_implemented [0] (by simp)

/-! ## Claim C10: a 4-byte frame passes the header checks and then raises
`IndexError` reading byte 4 -/

/-- **C10** — for every frame of length exactly 4 whose declared length `N`
satisfies the sanity check (`N ≤ 1024`), `decompress` fails with an
out-of-bounds `IndexError` when reading byte 4 for the level tag — an error
outside the `ValueError` taxonomy, so the effective minimum decodable frame
length is 5. -/
theorem c10_minimum_frame_indexerror (frame : List Nat) (hlen : frame.length = 4)
    (hN : leU32 (pySlice frame 0 4) ≤ 1024) :
    decompress frame = .error .indexError := by
  unfold decompress
  have h1 : ¬ frame.length < 4 := by omega
  have h2 : ¬ ((leU32 (pySlice frame 0 4) : ℚ) / 256 > (frame.length : ℚ)) := by
    rw [badlen_iff]; omega
  simp only [h1, if_false, h2]
  have h3 : pyGetNat frame 4 = .error .indexError := by
    unfold pyGetNat
    simp [hlen]
  rw [h3]

theorem c10_witness : decompress [0, 0, 0, 0] = .error .indexError :=
  c10_minimum_frame_indexerror [0, 0, 0, 0] (by simp) (by norm_num [leU32, pySlice])

/-! ## Claim C3: header validation of `decompress` -/

theorem decodeErr_ne_valueError {e : PyError} (h : decodeErr e) (msg : String) :
    e ≠ .valueError msg := by
  rcases h with rfl | rfl <;> simp

theorem unknown_msg_ne (s t : String) (h : t.length < 28) :
    ("Unknown compression level (" ++ s ++ ")") ≠ t := by
  intro he
  have hl := congrArg String.length he
  rw [String.length_append, String.length_append] at hl
  have h1 : ("Unknown compression level (" : String).length = 27 := rfl
  have h2 : (")" : String).length = 1 := rfl
  omega

/-- **C3** — Header validation of `decompress`, as raises-iff over every
frame: it raises "No headerlen present" iff `len(frame) < 4`; otherwise,
with `N` the little-endian uint32 of `frame[0:4]`, it raises
"Bad headerlen" iff `N/256 > len(frame)`; otherwise, for frames of length
≥ 5, it raises "Unknown compression level (k)" iff `k = frame[4] >> 5` is
neither 0 nor 1, and dispatches to the level-1 decoder when `k = 0` and the
level-2 decoder when `k = 1`. -/
theorem c3_header_validation (frame : List Nat) :
    (decompress frame = .error (.valueError "No headerlen present") ↔ frame.length < 4) ∧
    (4 ≤ frame.length →
      (decompress frame = .error (.valueError "Bad headerlen") ↔
        ((leU32 (pySlice frame 0 4) : ℚ) / 256 > (frame.length : ℚ)))) ∧
    (5 ≤ frame.length → ¬ ((leU32 (pySlice frame 0 4) : ℚ) / 256 > (frame.length : ℚ)) →
      ((decompress frame =
          .error (.valueError ("Unknown compression level (" ++
            toString (frame.getD 4 0 >>> 5) ++ ")"))) ↔
        (frame.getD 4 0 >>> 5 ≠ 0 ∧ frame.getD 4 0 >>> 5 ≠ 1)) ∧
      (frame.getD 4 0 >>> 5 = 0 →
        decompress frame = fastlz_decompress_lv1 (frame.drop 4) (leU32 (pySlice frame 0 4))) ∧
      (frame.getD 4 0 >>> 5 = 1 →
        decompress frame = fastlz_decompress_lv2 (frame.drop 4) (leU32 (pySlice frame 0 4)))) := by
  by_cases hlen4 : frame.length < 4
  · have hd : decompress frame = .error (.valueError "No headerlen present") := by
      unfold decompress
      rw [if_pos hlen4]
    refine ⟨by simp [hd, hlen4], fun h4 => absurd h4 (by omega), fun h5 => absurd h5 (by omega)⟩
  · by_cases hbad : ((leU32 (pySlice frame 0 4) : ℚ) / 256 > (frame.length : ℚ))
    · have hd : decompress frame = .error (.valueError "Bad headerlen") := by
        unfold decompress
        rw [if_neg hlen4]
        simp only []
        rw [if_pos hbad]
      refine ⟨?_, fun _ => by simp [hd, hbad], fun _ hnb => absurd hbad hnb⟩
      rw [hd]
      simp [hlen4]
    · -- header checks pass
      by_cases hlen5 : frame.length < 5
      · -- length exactly 4: byte 4 read raises IndexError
        have hd : decompress frame = .error .indexError := by
          unfold decompress
          rw [if_neg hlen4]
          simp only []
          rw [if_neg hbad]
          have h3 : pyGetNat frame 4 = .error .indexError := by
            unfold pyGetNat
            rw [if_neg (by omega)]
          rw [h3]
        refine ⟨by simp [hd, hlen4], fun _ => by simp [hd, hbad], fun h5 => absurd h5 (by omega)⟩
      · -- length ≥ 5
        have hb4 : pyGetNat frame 4 = .ok (frame.getD 4 0) := by
          unfold pyGetNat
          rw [if_pos (by omega)]
        have hd : decompress frame =
            (if frame.getD 4 0 >>> 5 = 0 then
              fastlz_decompress_lv1 (frame.drop 4) (leU32 (pySlice frame 0 4))
            else if frame.getD 4 0 >>> 5 = 1 then
              fastlz_decompress_lv2 (frame.drop 4) (leU32 (pySlice frame 0 4))
            else .error (.valueError ("Unknown compression level (" ++
              toString (frame.getD 4 0 >>> 5) ++ ")"))) := by
          unfold decompress
          rw [if_neg hlen4]
          simp only []
          rw [if_neg hbad, hb4]
        by_cases hk0 : frame.getD 4 0 >>> 5 = 0
        · rw [hk0] at hd
          norm_num at hd
          have hno : ∀ msg, decompress frame ≠ .error (.valueError msg) := by
            intro msg he
            rw [hd] at he
            exact (decodeErr_ne_valueError (fastlz_decompress_lv1_error he) msg) rfl
          refine ⟨⟨fun h => absurd h (hno _), fun h => absurd h (by omega)⟩,
            fun _ => ⟨fun h => absurd h (hno _), fun h => absurd hbad (by simp [h])⟩,
            fun _ _ => ⟨⟨fun h => absurd h (hno _), fun h => absurd hk0 h.1⟩,
              fun _ => hd, fun h1 => absurd h1 (by omega)⟩⟩
        · by_cases hk1 : frame.getD 4 0 >>> 5 = 1
          · rw [hk1] at hd
            norm_num at hd
            have hno : ∀ msg, decompress frame ≠ .error (.valueError msg) := by
              intro msg he
              rw [hd] at he
              exact (decodeErr_ne_valueError (fastlz_decompress_lv2_error he) msg) rfl
            refine ⟨⟨fun h => absurd h (hno _), fun h => absurd h (by omega)⟩,
              fun _ => ⟨fun h => absurd h (hno _), fun h => absurd hbad (by simp [h])⟩,
              fun _ _ => ⟨⟨fun h => absurd h (hno _), fun h => absurd hk1 h.2⟩,
                fun h0 => absurd h0 hk0, fun _ => hd⟩⟩
          · rw [if_neg hk0, if_neg hk1] at hd
            refine ⟨?_, fun _ => ?_, fun _ _ => ⟨?_, fun h0 => absurd h0 hk0,
              fun h1 => absurd h1 hk1⟩⟩
            · rw [hd]
              constructor
              · intro h
                injection h with h2
                injection h2 with h3
                exact absurd h3 (unknown_msg_ne _ _ (by decide))
              · intro h; omega
            · rw [hd]
              constructor
              · intro h
                injection h with h2
                injection h2 with h3
                exact absurd h3 (unknown_msg_ne _ _ (by decide))
              · intro h; exact absurd h hbad
            · rw [hd]
              exact ⟨fun _ => ⟨hk0, hk1⟩, fun _ => rfl⟩

/-- Witness for C3 at the concrete 5-byte frame `[0,0,0,0,0x40]`
(declared length 0, level tag 2). -/
theorem c3_witness :
    ((decompress [0, 0, 0, 0, 64] =
        .error (.valueError ("Unknown compression level (" ++
          toString (([0, 0, 0, 0, 64] : List Nat).getD 4 0 >>> 5) ++ ")"))) ↔
      (([0, 0, 0, 0, 64] : List Nat).getD 4 0 >>> 5 ≠ 0 ∧
        ([0, 0, 0, 0, 64] : List Nat).getD 4 0 >>> 5 ≠ 1)) ∧
    (([0, 0, 0, 0, 64] : List Nat).getD 4 0 >>> 5 = 0 →
      decompress [0, 0, 0, 0, 64] =
        fastlz_decompress_lv1 (([0, 0, 0, 0, 64] : List Nat).drop 4)
          (leU32 (pySlice [0, 0, 0, 0, 64] 0 4))) ∧
    (([0, 0, 0, 0, 64] : List Nat).getD 4 0 >>> 5 = 1 →
      decompress [0, 0, 0, 0, 64] =
        fastlz_decompress_lv2 (([0, 0, 0, 0, 64] : List Nat).drop 4)
          (leU32 (pySlice [0, 0, 0, 0, 64] 0 4))) :=
  (c3_header_validation [0, 0, 0, 0, 64]).2.2 (by simp)
    (by rw [badlen_iff]; norm_num [leU32, pySlice])

/-! ## Claim C4: the level-1 match finder -/

theorem matchLenFrom_spec (data : List Nat) (p m maxL : Nat) :
    ∀ len, len ≤ maxL →
      len ≤ matchLenFrom data p m maxL len ∧
      matchLenFrom data p m maxL len ≤ maxL ∧
      (∀ i, len ≤ i → i < matchLenFrom data p m maxL len →
        p + i < data.length ∧ data.getD (p + i) 0 = data.getD (m + i) 0) ∧
      ¬ (p + matchLenFrom data p m maxL len < data.length ∧
         matchLenFrom data p m maxL len < maxL ∧
         data.getD (p + matchLenFrom data p m maxL len) 0 =
           data.getD (m + matchLenFrom data p m maxL len) 0) := by
  suffices H : ∀ k len, maxL - len = k → len ≤ maxL →
      len ≤ matchLenFrom data p m maxL len ∧
      matchLenFrom data p m maxL len ≤ maxL ∧
      (∀ i, len ≤ i → i < matchLenFrom data p m maxL len →
        p + i < data.length ∧ data.getD (p + i) 0 = data.getD (m + i) 0) ∧
      ¬ (p + matchLenFrom data p m maxL len < data.length ∧
         matchLenFrom data p m maxL len < maxL ∧
         data.getD (p + matchLenFrom data p m maxL len) 0 =
           data.getD (m + matchLenFrom data p m maxL len) 0) from
    fun len h => H _ len rfl h
  intro k
  induction k using Nat.strong_induction_on with
  | _ k ih =>
    intro len hk hle
    by_cases hc : (p + len < data.length ∧ len < maxL ∧
        data.getD (p + len) 0 = data.getD (m + len) 0)
    · have heq : matchLenFrom data p m maxL len = matchLenFrom data p m maxL (len + 1) := by
        conv_lhs => rw [matchLenFrom]
        rw [if_pos hc]
      obtain ⟨h1, h2, h3, h4⟩ := ih (maxL - (len + 1)) (by omega) (len + 1) rfl (by omega)
      rw [heq]
      refine ⟨by omega, h2, ?_, h4⟩
      intro i hi1 hi2
      rcases Nat.eq_or_lt_of_le hi1 with hi | hi
      · exact ⟨hi ▸ hc.1, hi ▸ hc.2.2⟩
      · exact h3 i hi hi2
    · have heq : matchLenFrom data p m maxL len = len := by
        conv_lhs => rw [matchLenFrom]
        rw [if_neg hc]
      rw [heq]
      exact ⟨le_refl _, hle, fun i hi1 hi2 => absurd (lt_of_le_of_lt hi1 hi2) (lt_irrefl _),
        hc⟩

theorem matchLenFrom_max (data : List Nat) (p m maxL k : Nat) (hk : k ≤ maxL)
    (hN : p + k ≤ data.length)
    (hall : ∀ i, i < k → data.getD (p + i) 0 = data.getD (m + i) 0) :
    k ≤ matchLenFrom data p m maxL 0 := by
  by_contra hcon
  push_neg at hcon
  obtain ⟨_, _, _, hstop⟩ := matchLenFrom_spec data p m maxL 0 (by omega)
  exact hstop ⟨by omega, by omega, hall _ hcon⟩

/-- Running invariant of the `for offset` loop of `_find_match_lv1`: the
best pair summarises the backward distances `1 ≤ d < bound`. -/
def FindInv (data : List Nat) (pos minLen maxL bound bo bl : Nat) : Prop :=
  (bo = 0 ∧ bl = 0 ∧
    ∀ d, 1 ≤ d → d < bound → matchLenFrom data pos (pos - d) maxL 0 < minLen) ∨
  (1 ≤ bo ∧ bo < bound ∧ bl = matchLenFrom data pos (pos - bo) maxL 0 ∧ minLen ≤ bl ∧
    (∀ d, 1 ≤ d → d < bound → matchLenFrom data pos (pos - d) maxL 0 ≤ bl) ∧
    (∀ d, 1 ≤ d → d < bound → matchLenFrom data pos (pos - d) maxL 0 = bl → bo ≤ d))

theorem findMatchFrom_inv (data : List Nat) (pos minLen maxL stop : Nat) (hmin : 1 ≤ minLen) :
    ∀ n offset bestOff bestLen, stop - offset = n → 1 ≤ offset → offset ≤ stop →
      FindInv data pos minLen maxL offset bestOff bestLen →
      FindInv data pos minLen maxL stop
        (findMatchFrom data pos minLen maxL stop offset bestOff bestLen).1
        (findMatchFrom data pos minLen maxL stop offset bestOff bestLen).2 := by
  intro n
  induction n using Nat.strong_induction_on with
  | _ n ih =>
    intro offset bestOff bestLen hn h1 hstop hinv
    by_cases hlt : offset < stop
    · rw [findMatchFrom, if_pos hlt]
      simp only []
      by_cases hupd : minLen ≤ matchLenFrom data pos (pos - offset) maxL 0 ∧
          bestLen < matchLenFrom data pos (pos - offset) maxL 0
      · rw [if_pos hupd]
        refine ih (stop - (offset + 1)) (by omega) (offset + 1) _ _ rfl (by omega) (by omega) ?_
        right
        refine ⟨by omega, by omega, rfl, hupd.1, ?_, ?_⟩
        · intro d hd1 hd2
          rcases Nat.lt_or_ge d offset with hdo | hdo
          · rcases hinv with ⟨_, rfl, hall⟩ | ⟨_, _, _, _, hall, _⟩
            · exact le_trans (le_of_lt (hall d hd1 hdo)) (le_trans hupd.1 (le_refl _))
            · exact le_trans (hall d hd1 hdo) (le_of_lt hupd.2)
          · have : d = offset := by omega
            rw [this]
        · intro d hd1 hd2 hdeq
          rcases Nat.lt_or_ge d offset with hdo | hdo
          · rcases hinv with ⟨_, rfl, hall⟩ | ⟨_, _, _, _, hall, _⟩
            · exact absurd (hdeq ▸ hall d hd1 hdo) (by omega)
            · exact absurd (hdeq ▸ hall d hd1 hdo) (by omega)
          · omega
      · rw [if_neg hupd]
        refine ih (stop - (offset + 1)) (by omega) (offset + 1) _ _ rfl (by omega) (by omega) ?_
        rcases hinv with ⟨hbo, hbl, hall⟩ | ⟨hbo, hbnd, hbl, hmle, hall, htie⟩
        · left
          refine ⟨hbo, hbl, ?_⟩
          intro d hd1 hd2
          rcases Nat.lt_or_ge d offset with hdo | hdo
          · exact hall d hd1 hdo
          · have hde : d = offset := by omega
            rw [hde]
            by_contra hge
            push_neg at hge
            exact hupd ⟨hge, by omega⟩
        · right
          refine ⟨hbo, by omega, hbl, hmle, ?_, ?_⟩
          · intro d hd1 hd2
            rcases Nat.lt_or_ge d offset with hdo | hdo
            · exact hall d hd1 hdo
            · have hde : d = offset := by omega
              rw [hde]
              by_contra hge
              push_neg at hge
              exact hupd ⟨by omega, hge⟩
          · intro d hd1 hd2 hdeq
            rcases Nat.lt_or_ge d offset with hdo | hdo
            · exact htie d hd1 hdo hdeq
            · omega
    · rw [findMatchFrom, if_neg hlt]
      have : offset = stop := by omega
      exact this ▸ hinv

theorem find_match_lv1_stop (pos : Nat) :
    min (pos - (pos - 8191) + 1) (8191 + 1) = min pos 8191 + 1 := by omega

/-- **C4** — The level-1 match finder, instantiated as the compressor calls
it (max distance 8191, minimum length 3, maximum length 264): it considers
exactly the backward distances `d ∈ [1, min(pos, 8191)]`; for each `d`,
`matchLenFrom data pos (pos-d) 264 0` is the longest run of equal bytes
capped at 264 and at end of input (third conjunct); it returns `none` iff
every such run is shorter than 3, and otherwise the pair with maximal run
length, ties broken towards the smallest distance. -/
theorem c4_match_finder (data : List Nat) (pos : Nat) :
    (find_match_lv1 data pos 8191 3 264 = none ↔
      ∀ d, 1 ≤ d → d ≤ min pos 8191 → matchLenFrom data pos (pos - d) 264 0 < 3) ∧
    (∀ o l, find_match_lv1 data pos 8191 3 264 = some (o, l) →
      1 ≤ o ∧ o ≤ min pos 8191 ∧ l = matchLenFrom data pos (pos - o) 264 0 ∧ 3 ≤ l ∧
      (∀ d, 1 ≤ d → d ≤ min pos 8191 → matchLenFrom data pos (pos - d) 264 0 ≤ l) ∧
      (∀ d, 1 ≤ d → d ≤ min pos 8191 →
        matchLenFrom data pos (pos - d) 264 0 = l → o ≤ d)) ∧
    (∀ d, (∀ i, i < matchLenFrom data pos (pos - d) 264 0 →
        pos + i < data.length ∧ data.getD (pos + i) 0 = data.getD (pos - d + i) 0) ∧
      matchLenFrom data pos (pos - d) 264 0 ≤ 264 ∧
      (∀ k, k ≤ 264 → pos + k ≤ data.length →
        (∀ i, i < k → data.getD (pos + i) 0 = data.getD (pos - d + i) 0) →
        k ≤ matchLenFrom data pos (pos - d) 264 0)) := by
  have hml : ∀ d, (∀ i, i < matchLenFrom data pos (pos - d) 264 0 →
      pos + i < data.length ∧ data.getD (pos + i) 0 = data.getD (pos - d + i) 0) ∧
      matchLenFrom data pos (pos - d) 264 0 ≤ 264 ∧
      (∀ k, k ≤ 264 → pos + k ≤ data.length →
        (∀ i, i < k → data.getD (pos + i) 0 = data.getD (pos - d + i) 0) →
        k ≤ matchLenFrom data pos (pos - d) 264 0) := by
    intro d
    obtain ⟨_, h2, h3, _⟩ := matchLenFrom_spec data pos (pos - d) 264 0 (by omega)
    exact ⟨fun i hi => h3 i (by omega) hi, h2,
      fun k hk hN hall => matchLenFrom_max data pos (pos - d) 264 k hk hN hall⟩
  have hrunN : ∀ d, matchLenFrom data pos (pos - d) 264 0 ≤ data.length - pos := by
    intro d
    obtain ⟨hrun, _, _⟩ := hml d
    by_contra hcon
    push_neg at hcon
    have h0 : 0 < matchLenFrom data pos (pos - d) 264 0 := by omega
    have := (hrun (matchLenFrom data pos (pos - d) 264 0 - 1) (by omega)).1
    omega
  by_cases hshort : data.length < pos + 3
  · -- early exit: every run is shorter than 3
    have hnone : find_match_lv1 data pos 8191 3 264 = none := by
      unfold find_match_lv1
      rw [if_pos hshort]
    refine ⟨⟨fun _ d _ _ => by have := hrunN d; omega, fun _ => hnone⟩,
      fun o l h => absurd (hnone ▸ h) (by simp), hml⟩
  · have hinv := findMatchFrom_inv data pos 3 264 (min pos 8191 + 1) (by omega)
      (min pos 8191 + 1 - 1) 1 0 0 rfl (by omega) (by omega)
      (Or.inl ⟨rfl, rfl, fun d hd1 hd2 => absurd (by omega : d < 1) (by omega)⟩)
    have heq : find_match_lv1 data pos 8191 3 264 =
        (if 3 ≤ (findMatchFrom data pos 3 264 (min pos 8191 + 1) 1 0 0).2 then
          some (findMatchFrom data pos 3 264 (min pos 8191 + 1) 1 0 0)
        else none) := by
      unfold find_match_lv1
      rw [if_neg hshort]
      simp only []
      rw [find_match_lv1_stop]
    set res := findMatchFrom data pos 3 264 (min pos 8191 + 1) 1 0 0 with hres
    rcases hinv with ⟨hbo, hbl, hall⟩ | ⟨hbo, hbnd, hbl, hmle, hall, htie⟩
    · have hnone : find_match_lv1 data pos 8191 3 264 = none := by
        rw [heq, if_neg (by omega)]
      refine ⟨⟨fun _ d hd1 hd2 => hall d hd1 (by omega), fun _ => hnone⟩,
        fun o l h => absurd (hnone ▸ h) (by simp), hml⟩
    · have hsome : find_match_lv1 data pos 8191 3 264 = some res := by
        rw [heq, if_pos (by omega)]
      refine ⟨⟨fun h => absurd (hsome ▸ h) (by simp), fun hlt => ?_⟩, ?_, hml⟩
      · exact absurd (hbl ▸ hlt res.1 hbo (by omega)) (by omega)
      · intro o l h
        rw [hsome] at h
        injection h with h2
        have ho : o = res.1 := (congrArg Prod.fst h2).symm
        have hl : l = res.2 := (congrArg Prod.snd h2).symm
        rw [ho, hl]
        exact ⟨hbo, by omega, hbl, by omega,
          fun d hd1 hd2 => hall d hd1 (by omega),
          fun d hd1 hd2 hde => htie d hd1 (by omega) hde⟩

/-- Witness for C4 at `data = [5,5,5,5]`, `pos = 1`: the finder returns
distance 1 with run length 3. -/
theorem c4_witness :
    1 ≤ 1 ∧ 1 ≤ min 1 8191 ∧
      (3 : Nat) = matchLenFrom [5, 5, 5, 5] 1 (1 - 1) 264 0 ∧ 3 ≤ 3 ∧
      (∀ d, 1 ≤ d → d ≤ min 1 8191 → matchLenFrom [5, 5, 5, 5] 1 (1 - d) 264 0 ≤ 3) ∧
      (∀ d, 1 ≤ d → d ≤ min 1 8191 →
        matchLenFrom [5, 5, 5, 5] 1 (1 - d) 264 0 = 3 → 1 ≤ d) :=
  (c4_match_finder [5, 5, 5, 5] 1).2.1 1 3
    (by simp [find_match_lv1, findMatchFrom, matchLenFrom])

/-! ## Encoder facts shared by the size bounds and the round-trip proof -/

/-- What a successful match report guarantees (instantiated as
`_fastlz_compress_lv1` calls the finder). -/
theorem find_match_facts {data : List Nat} {pos o l : Nat}
    (h : find_match_lv1 data pos 8191 3 264 = some (o, l)) :
    1 ≤ o ∧ o ≤ pos ∧ o ≤ 8191 ∧ 3 ≤ l ∧ l ≤ 264 ∧ pos + l ≤ data.length ∧
    ∀ i, i < l → data.getD (pos + i) 0 = data.getD (pos - o + i) 0 := by
  unfold find_match_lv1 at h
  split at h
  · exact absurd h (by simp)
  · simp only [] at h
    rw [find_match_lv1_stop] at h
    split at h
    · rename_i hle
      injection h with h2
      have hinv := findMatchFrom_inv data pos 3 264 (min pos 8191 + 1) (by omega)
        (min pos 8191 + 1 - 1) 1 0 0 rfl (by omega) (by omega)
        (Or.inl ⟨rfl, rfl, fun d hd1 hd2 => absurd (by omega : d < 1) (by omega)⟩)
      have ho : o = (findMatchFrom data pos 3 264 (min pos 8191 + 1) 1 0 0).1 :=
        (congrArg Prod.fst h2).symm
      have hl : l = (findMatchFrom data pos 3 264 (min pos 8191 + 1) 1 0 0).2 :=
        (congrArg Prod.snd h2).symm
      rcases hinv with ⟨_, hbl, _⟩ | ⟨hbo, hbnd, hbl, hmle, _, _⟩
      · rw [← hl] at hbl
        omega
      · rw [← ho] at hbo hbnd hbl
        rw [← hl] at hbl hmle
        obtain ⟨_, hml2, hml3, _⟩ := matchLenFrom_spec data pos (pos - o) 264 0 (by omega)
        rw [← hbl] at hml2 hml3
        have hrun : ∀ i, i < l → pos + i < data.length ∧
            data.getD (pos + i) 0 = data.getD (pos - o + i) 0 :=
          fun i hi => hml3 i (by omega) hi
        have hNl : pos + l ≤ data.length := by
          have := (hrun (l - 1) (by omega)).1
          omega
        exact ⟨hbo, by omega, by omega, by omega, hml2, hNl, fun i hi => (hrun i hi).2⟩
    · exact absurd h (by simp)

theorem emit_literals_length :
    ∀ n (lits out : List Nat), lits.length = n →
      (emit_literals out lits).length = out.length + lits.length + (lits.length + 31) / 32 := by
  intro n
  induction n using Nat.strong_induction_on with
  | _ n ih =>
    intro lits out hn
    rw [emit_literals]
    by_cases h : 0 < lits.length
    · rw [if_pos h]
      simp only []
      rw [ih (lits.length - min 32 lits.length) (by omega) _ _ (by simp)]
      simp only [List.length_append, List.length_cons, List.length_take, List.length_drop]
      omega
    · rw [if_neg h]
      omega

theorem emit_match_lv1_length (out : List Nat) (o l : Nat) :
    (emit_match_lv1 out o l).length = out.length + (if l ≤ 8 then 2 else 3) := by
  unfold emit_match_lv1
  split <;> simp

/-- Size upper bound for the compressor loop: running invariant
`|out| ≤ anchor + ⌈anchor/32⌉`, final slack at most one extra opcode byte. -/
theorem compressLv1Loop_le (data : List Nat) :
    ∀ n pos anchor out, data.length - pos = n → anchor ≤ pos → pos ≤ data.length →
      out.length ≤ anchor + (anchor + 31) / 32 →
      (compressLv1Loop data pos anchor out).length ≤
        data.length + (data.length + 31) / 32 + 1 := by
  intro n
  induction n using Nat.strong_induction_on with
  | _ n ih =>
    intro pos anchor out hn ha hp hout
    rw [compressLv1Loop]
    by_cases hpos : pos < data.length
    · rw [dif_pos hpos]
      cases hm : find_match_lv1 data pos 8191 3 264 with
      | none =>
        simp only []
        exact ih (data.length - (pos + 1)) (by omega) (pos + 1) anchor out rfl (by omega)
          (by omega) hout
      | some r =>
        obtain ⟨mo, ml⟩ := r
        simp only []
        obtain ⟨_, _, _, hml3, hml264, hmlN, _⟩ := find_match_facts hm
        have hsl : (pySlice data anchor pos).length = pos - anchor := by
          unfold pySlice
          simp
          omega
        by_cases hap : anchor < pos
        · rw [if_pos hap]
          refine ih (data.length - (pos + ml)) (by omega) (pos + ml) (pos + ml) _ rfl
            (le_refl _) (by omega) ?_
          rw [emit_match_lv1_length, emit_literals_length (pySlice data anchor pos).length _ _ rfl,
            hsl]
          split <;> omega
        · rw [if_neg hap]
          refine ih (data.length - (pos + ml)) (by omega) (pos + ml) (pos + ml) _ rfl
            (le_refl _) (by omega) ?_
          rw [emit_match_lv1_length]
          split <;> omega
    · rw [dif_neg hpos]
      split
      · rw [emit_literals_length (data.drop anchor).length _ _ rfl]
        simp only [List.length_drop]
        omega
      · omega

/-- Size lower bound for the compressor loop (used for the `Bad headerlen`
sanity check in the round-trip proof): each token covers at most 264 input
bytes with at least 2 output bytes, so `N ≤ 132 · |body|`. -/
theorem compressLv1Loop_lower (data : List Nat) :
    ∀ n pos anchor out, data.length - pos = n → anchor ≤ pos → pos ≤ data.length →
      anchor ≤ 132 * out.length →
      data.length ≤ 132 * (compressLv1Loop data pos anchor out).length := by
  intro n
  induction n using Nat.strong_induction_on with
  | _ n ih =>
    intro pos anchor out hn ha hp hout
    rw [compressLv1Loop]
    by_cases hpos : pos < data.length
    · rw [dif_pos hpos]
      cases hm : find_match_lv1 data pos 8191 3 264 with
      | none =>
        simp only []
        exact ih (data.length - (pos + 1)) (by omega) (pos + 1) anchor out rfl (by omega)
          (by omega) hout
      | some r =>
        obtain ⟨mo, ml⟩ := r
        simp only []
        obtain ⟨_, _, _, hml3, hml264, hmlN, _⟩ := find_match_facts hm
        have hsl : (pySlice data anchor pos).length = pos - anchor := by
          unfold pySlice
          simp
          omega
        by_cases hap : anchor < pos
        · rw [if_pos hap]
          refine ih (data.length - (pos + ml)) (by omega) (pos + ml) (pos + ml) _ rfl
            (le_refl _) (by omega) ?_
          rw [emit_match_lv1_length, emit_literals_length (pySlice data anchor pos).length _ _ rfl,
            hsl]
          split <;> omega
        · rw [if_neg hap]
          refine ih (data.length - (pos + ml)) (by omega) (pos + ml) (pos + ml) _ rfl
            (le_refl _) (by omega) ?_
          rw [emit_match_lv1_length]
          split <;> omega
    · rw [dif_neg hpos]
      split
      · rw [emit_literals_length (data.drop anchor).length _ _ rfl]
        simp only [List.length_drop]
        omega
      · omega

/-! ## Claim C8: compressed-size upper bound -/

/-- **C8** — For every bytes `x` on which `compress` succeeds,
`len(compress(x,1)) ≤ |x| + ⌈|x|/32⌉ + 5`. -/
theorem c8_size_bound (x : List Nat) :
    ∀ f, compress x 1 = .ok f → f.length ≤ x.length + (x.length + 31) / 32 + 5 := by
  intro f hf
  unfold compress at hf
  rw [if_neg (by norm_num)] at hf
  by_cases hx : x.length = 0
  · rw [if_pos hx] at hf
    have : packU32 0 = .ok [0, 0, 0, 0] := rfl
    rw [this] at hf
    simp only [Except.map] at hf
    injection hf with h2
    rw [← h2]
    simp
  · rw [if_neg hx, if_pos rfl] at hf
    simp only [] at hf
    by_cases hbig : x.length < 4294967296
    · unfold packU32 at hf
      rw [if_pos hbig] at hf
      simp only [Except.map] at hf
      injection hf with h2
      have hbody := compressLv1Loop_le x (x.length - 0) 0 0 [] rfl (by omega) (by omega)
        (by simp)
      rw [← h2]
      unfold fastlz_compress_lv1
      rw [if_neg hx]
      unfold fastlz_compress_lv1 at h2
      rw [if_neg hx] at h2
      split
      · simp only [List.length_append, List.length_cons, List.length_drop, List.length_nil]
        omega
      · simp only [List.length_append, List.length_cons, List.length_nil]
        omega
    · unfold packU32 at hf
      rw [if_neg hbig] at hf
      exact absurd hf (by simp [Except.map])

theorem fastlz_compress_lv1_123 : fastlz_compress_lv1 [1, 2, 3] = [2, 1, 2, 3] := by
  have hf0 : find_match_lv1 [1, 2, 3] 0 8191 3 264 = none := by
    simp [find_match_lv1, findMatchFrom, matchLenFrom]
  have hf1 : find_match_lv1 [1, 2, 3] 1 8191 3 264 = none := by
    simp [find_match_lv1, findMatchFrom, matchLenFrom]
  have hf2 : find_match_lv1 [1, 2, 3] 2 8191 3 264 = none := by
    simp [find_match_lv1, findMatchFrom, matchLenFrom]
  rw [fastlz_compress_lv1, if_neg (by norm_num)]
  rw [compressLv1Loop_step_none hf0 (by norm_num)]
  rw [compressLv1Loop_step_none hf1 (by norm_num)]
  rw [compressLv1Loop_step_none hf2 (by norm_num)]
  rw [compressLv1Loop_end (by norm_num)]
  rw [if_pos (by norm_num)]
  rw [emit_literals]
  norm_num
  rw [emit_literals]
  norm_num

theorem compress_123 : compress [1, 2, 3] 1 = .ok [3, 0, 0, 0, 2, 1, 2, 3] := by
  unfold compress
  rw [if_neg (by norm_num), if_neg (by norm_num), if_pos rfl]
  simp only [fastlz_compress_lv1_123]
  simp [packU32, Except.map]
  decide

theorem c8_witness :
    compress [1, 2, 3] 1 = .ok [3, 0, 0, 0, 2, 1, 2, 3] ∧
    ([3, 0, 0, 0, 2, 1, 2, 3] : List Nat).length ≤
      ([1, 2, 3] : List Nat).length + (([1, 2, 3] : List Nat).length + 31) / 32 + 5 :=
  ⟨compress_123, c8_size_bound [1, 2, 3] _ compress_123⟩

/-! ## Claim C9: exact size of incompressible output -/

/-- When the finder reports no match at any position from `pos` on, the loop
just walks to the end and flushes one literal run. -/
theorem compressLv1Loop_nomatch (data : List Nat) :
    ∀ n pos out, data.length - pos = n → pos ≤ data.length →
      (∀ q, q < data.length → find_match_lv1 data q 8191 3 264 = none) →
      0 < data.length →
      compressLv1Loop data pos 0 out = emit_literals out data := by
  intro n
  induction n using Nat.strong_induction_on with
  | _ n ih =>
    intro pos out hn hp hnm hpos0
    rw [compressLv1Loop]
    by_cases hpos : pos < data.length
    · rw [dif_pos hpos]
      have hnone := hnm pos hpos
      cases hm : find_match_lv1 data pos 8191 3 264 with
      | none =>
        simp only []
        exact ih (data.length - (pos + 1)) (by omega) (pos + 1) out rfl (by omega) hnm hpos0
      | some r =>
        rw [hnone] at hm
        exact absurd hm (by simp)
    · rw [dif_neg hpos]
      rw [if_pos hpos0]
      simp

/-- **C9** — For every non-empty input on which the match finder reports no
match at any position, the compressed body has length exactly
`⌈N/32⌉ + N`. -/
theorem c9_incompressible_exact (x : List Nat) (hx : x ≠ [])
    (hnm : ∀ p, p < x.length → find_match_lv1 x p 8191 3 264 = none) :
    (fastlz_compress_lv1 x).length = (x.length + 31) / 32 + x.length := by
  unfold fastlz_compress_lv1
  have hx0 : ¬ x.length = 0 := by simpa using hx
  rw [if_neg hx0]
  rw [compressLv1Loop_nomatch x (x.length - 0) 0 [] rfl (by omega) hnm (by omega)]
  rw [emit_literals_length x.length x [] rfl]
  simp only [List.length_nil]
  omega

theorem c9_witness :
    (fastlz_compress_lv1 [0, 1, 2]).length =
      (([0, 1, 2] : List Nat).length + 31) / 32 + ([0, 1, 2] : List Nat).length :=
  c9_incompressible_exact [0, 1, 2] (by simp)
    (by intro p hp
        simp only [List.length_cons, List.length_nil] at hp
        interval_cases p <;> simp [find_match_lv1, findMatchFrom, matchLenFrom])

/-! ## Token-level view of the level-1 stream

The level-1 body is a concatenation of tokens: literal chunks of 1..32
bytes and backward matches.  `encTok` is the byte encoding each token gets
from the emitters, `execTok` its effect on the decoded output. -/

inductive Tok where
  | lit (bs : List Nat)
  | mat (offset length : Nat)
deriving DecidableEq, Repr

def encTok : Tok → List Nat
  | .lit bs => (bs.length - 1) :: bs
  | .mat o l => emit_match_lv1 [] o l

def encToks : List Tok → List Nat
  | [] => []
  | t :: ts => encTok t ++ encToks ts

def tokOutLen : Tok → Nat
  | .lit bs => bs.length
  | .mat _ l => l

def toksOutLen : List Tok → Nat
  | [] => 0
  | t :: ts => tokOutLen t + toksOutLen ts

/-- Constraints under which the level-1 decoder consumes a token exactly as
the encoder meant it, when the output cursor sits at `pos`. -/
def tokOK (pos : Nat) : Tok → Prop
  | .lit bs => 1 ≤ bs.length ∧ bs.length ≤ 32
  | .mat o l => 1 ≤ o ∧ o ≤ pos ∧ o ≤ 8191 ∧ 3 ≤ l ∧ l ≤ 264

def toksOK : Nat → List Tok → Prop
  | _, [] => True
  | pos, t :: ts => tokOK pos t ∧ toksOK (pos + tokOutLen t) ts

def execTok (D : List Nat) : Tok → List Nat
  | .lit bs => D ++ bs
  | .mat o l => serialExt D (D.length - o) l

def execToks : List Nat → List Tok → List Nat
  | D, [] => D
  | D, t :: ts => execToks (execTok D t) ts

/-- The `_memmove` calls that decoding a token list performs, as
`(out_pos, distance, length)` triples. -/
def traceOf : Nat → List Tok → List (Nat × Nat × Nat)
  | _, [] => []
  | pos, .lit bs :: ts => traceOf (pos + bs.length) ts
  | pos, .mat o l :: ts => (pos, o, l) :: traceOf (pos + l) ts

/-- The split of a pending literal run into chunks of at most 32 bytes,
mirroring `_emit_literals`. -/
def litChunks (lits : List Nat) : List Tok :=
  if 0 < lits.length then
    .lit (lits.take (min 32 lits.length)) :: litChunks (lits.drop (min 32 lits.length))
  else []
termination_by lits.length
decreasing_by simp; omega

/-- The token stream produced by the compressor loop from state
`(pos, anchor)`. -/
def lv1Tokens (data : List Nat) (pos anchor : Nat) : List Tok :=
  if hpos : pos < data.length then
    match hm : find_match_lv1 data pos 8191 3 264 with
    | none => lv1Tokens data (pos + 1) anchor
    | some (mo, ml) =>
      (if anchor < pos then litChunks (pySlice data anchor pos) else []) ++
        .mat mo ml :: lv1Tokens data (pos + ml) (pos + ml)
  else if anchor < data.length then litChunks (data.drop anchor) else []
termination_by data.length - pos
decreasing_by
  · omega
  · have := find_match_lv1_minLen hm; omega

/-! ### Basic token lemmas -/

theorem encTok_length_lit (bs : List Nat) : (encTok (.lit bs)).length = bs.length + 1 := by
  simp [encTok]

theorem encTok_length_mat (o l : Nat) :
    (encTok (.mat o l)).length = if l ≤ 8 then 2 else 3 := by
  rw [show encTok (.mat o l) = emit_match_lv1 [] o l from rfl, emit_match_lv1_length]
  simp

theorem encTok_pos (t : Tok) : 0 < (encTok t).length := by
  cases t with
  | lit bs => simp [encTok]
  | mat o l => rw [encTok_length_mat]; split <;> omega

theorem encToks_length_pos {ts : List Tok} (h : ts ≠ []) : 0 < (encToks ts).length := by
  cases ts with
  | nil => exact absurd rfl h
  | cons t ts =>
    rw [show encToks (t :: ts) = encTok t ++ encToks ts from rfl]
    simp only [List.length_append]
    have := encTok_pos t
    omega

theorem execToks_append (us : List Tok) :
    ∀ D ts, execToks D (ts ++ us) = execToks (execToks D ts) us := by
  intro D ts
  induction ts generalizing D with
  | nil => rfl
  | cons t ts ih => rw [List.cons_append]; exact ih (execTok D t)

theorem execTok_length (D : List Nat) (t : Tok) :
    (execTok D t).length = D.length + tokOutLen t := by
  cases t with
  | lit bs => simp [execTok, tokOutLen]
  | mat o l => rw [show execTok D (.mat o l) = serialExt D (D.length - o) l from rfl,
      serialExt_length]; rfl

theorem execToks_length (ts : List Tok) :
    ∀ D, (execToks D ts).length = D.length + toksOutLen ts := by
  induction ts with
  | nil => intro D; simp [execToks, toksOutLen]
  | cons t ts ih =>
    intro D
    rw [show execToks D (t :: ts) = execToks (execTok D t) ts from rfl, ih, execTok_length]
    rw [show toksOutLen (t :: ts) = tokOutLen t + toksOutLen ts from rfl]
    omega

theorem toksOK_append {us : List Tok} :
    ∀ {p ts}, toksOK p ts → toksOK (p + toksOutLen ts) us → toksOK p (ts ++ us) := by
  intro p ts
  induction ts generalizing p with
  | nil => intro _ h2; simpa using h2
  | cons t ts ih =>
    intro h1 h2
    rw [List.cons_append]
    refine ⟨h1.1, ih h1.2 ?_⟩
    rw [show toksOutLen (t :: ts) = tokOutLen t + toksOutLen ts from rfl] at h2
    rw [Nat.add_assoc]
    exact h2

/-! ### Bit-field lemmas for the opcode encodings -/

theorem bitFuse : ∀ m, m < 8 → ∀ r, r < 32 →
    ((m <<< 5) ||| r) >>> 5 = m ∧ ((m <<< 5) ||| r) &&& 31 = r := by decide

theorem shiftRight5_eq_zero {b : Nat} (h : b ≤ 31) : b >>> 5 = 0 := by
  rw [Nat.shiftRight_eq_div_pow]
  omega

theorem and255_eq_mod (x : Nat) : x &&& 255 = x % 256 := by
  have := Nat.and_pow_two_sub_one_eq_mod x 8
  norm_num at this
  exact this

theorem bitSplit13 {R : Nat} (h : R < 8192) :
    R >>> 8 < 32 ∧ ((R >>> 8) <<< 8) + (R &&& 255) = R := by
  rw [Nat.shiftRight_eq_div_pow, Nat.shiftLeft_eq, and255_eq_mod]
  norm_num
  omega

/-! ### The compressor emits exactly the encoding of its token stream -/

theorem encToks_append : ∀ ts us, encToks (ts ++ us) = encToks ts ++ encToks us := by
  intro ts us
  induction ts with
  | nil => rfl
  | cons t ts ih =>
    rw [List.cons_append, show encToks (t :: (ts ++ us)) = encTok t ++ encToks (ts ++ us) from rfl,
      ih, show encToks (t :: ts) = encTok t ++ encToks ts from rfl, List.append_assoc]

theorem emit_match_eq (out : List Nat) (o l : Nat) :
    emit_match_lv1 out o l = out ++ encTok (.mat o l) := by
  rw [show encTok (.mat o l) = emit_match_lv1 [] o l from rfl]
  unfold emit_match_lv1
  split <;> simp

theorem emit_literals_eq_chunks :
    ∀ n (lits out : List Nat), lits.length = n →
      emit_literals out lits = out ++ encToks (litChunks lits) := by
  intro n
  induction n using Nat.strong_induction_on with
  | _ n ih =>
    intro lits out hn
    rw [emit_literals, litChunks]
    by_cases h : 0 < lits.length
    · rw [if_pos h, if_pos h]
      simp only []
      rw [ih (lits.length - min 32 lits.length) (by omega) _ _ (by simp)]
      rw [show encToks (Tok.lit (lits.take (min 32 lits.length)) ::
            litChunks (lits.drop (min 32 lits.length))) =
          encTok (Tok.lit (lits.take (min 32 lits.length))) ++
            encToks (litChunks (lits.drop (min 32 lits.length))) from rfl]
      rw [show encTok (Tok.lit (lits.take (min 32 lits.length))) =
          ((lits.take (min 32 lits.length)).length - 1) :: lits.take (min 32 lits.length)
          from rfl]
      have hlt : (lits.take (min 32 lits.length)).length = min 32 lits.length := by
        rw [List.length_take]
        omega
      rw [hlt, List.append_assoc]
    · rw [if_neg h, if_neg h]
      simp [show encToks [] = [] from rfl]

theorem compressLv1Loop_eq_tokens (data : List Nat) :
    ∀ n pos anchor out, data.length - pos = n →
      compressLv1Loop data pos anchor out = out ++ encToks (lv1Tokens data pos anchor) := by
  intro n
  induction n using Nat.strong_induction_on with
  | _ n ih =>
    intro pos anchor out hn
    rw [compressLv1Loop, lv1Tokens]
    by_cases hpos : pos < data.length
    · rw [dif_pos hpos, dif_pos hpos]
      cases hm : find_match_lv1 data pos 8191 3 264 with
      | none =>
        simp only []
        exact ih (data.length - (pos + 1)) (by omega) (pos + 1) anchor out rfl
      | some r =>
        obtain ⟨mo, ml⟩ := r
        simp only []
        have hml := find_match_lv1_minLen hm
        rw [ih (data.length - (pos + ml)) (by omega) (pos + ml) (pos + ml) _ rfl]
        rw [encToks_append]
        rw [show encToks (Tok.mat mo ml :: lv1Tokens data (pos + ml) (pos + ml)) =
          encTok (Tok.mat mo ml) ++ encToks (lv1Tokens data (pos + ml) (pos + ml)) from rfl]
        rw [emit_match_eq]
        by_cases hap : anchor < pos
        · rw [if_pos hap, if_pos hap,
            emit_literals_eq_chunks (pySlice data anchor pos).length _ _ rfl]
          simp [List.append_assoc]
        · rw [if_neg hap, if_neg hap]
          simp [show encToks [] = [] from rfl, List.append_assoc]
    · rw [dif_neg hpos, dif_neg hpos]
      by_cases ha : anchor < data.length
      · rw [if_pos ha, if_pos ha, emit_literals_eq_chunks (data.drop anchor).length _ _ rfl]
      · rw [if_neg ha, if_neg ha]
        simp [show encToks [] = [] from rfl]

theorem fastlz_body (x : List Nat) (hx : ¬ x.length = 0) :
    fastlz_compress_lv1 x = encToks (lv1Tokens x 0 0) := by
  rw [fastlz_compress_lv1, if_neg hx, compressLv1Loop_eq_tokens x (x.length - 0) 0 0 [] rfl]
  rfl

/-! ### Semantics: executing the token stream reproduces the input -/

theorem execToks_litChunks :
    ∀ n (bs D : List Nat), bs.length = n → execToks D (litChunks bs) = D ++ bs := by
  intro n
  induction n using Nat.strong_induction_on with
  | _ n ih =>
    intro bs D hn
    rw [litChunks]
    by_cases h : 0 < bs.length
    · rw [if_pos h]
      rw [show execToks D (Tok.lit (bs.take (min 32 bs.length)) ::
            litChunks (bs.drop (min 32 bs.length))) =
          execToks (execTok D (Tok.lit (bs.take (min 32 bs.length))))
            (litChunks (bs.drop (min 32 bs.length))) from rfl]
      rw [show execTok D (Tok.lit (bs.take (min 32 bs.length))) =
          D ++ bs.take (min 32 bs.length) from rfl]
      rw [ih (bs.length - min 32 bs.length) (by omega) _ _ (by simp)]
      rw [List.append_assoc, List.take_append_drop]
    · rw [if_neg h]
      have : bs = [] := List.length_eq_zero.mp (by omega)
      rw [this]
      simp [show ∀ D, execToks D [] = D from fun _ => rfl]

theorem take_succ_getD {l : List Nat} {p : Nat} (h : p < l.length) :
    l.take (p + 1) = l.take p ++ [l.getD p 0] := by
  rw [List.take_succ]
  congr 1
  rw [List.getElem?_eq_getElem h]
  rw [List.getD_eq_getElem?_getD, List.getElem?_eq_getElem h]
  rfl

/-- Copying `l` bytes serially from distance `o` at the end of `data.take p`
extends the prefix, provided the source and target bytes agree as the match
finder checked. -/
theorem serialExt_take (data : List Nat) (o : Nat) :
    ∀ l p, 1 ≤ o → o ≤ p → p + l ≤ data.length →
      (∀ i, i < l → data.getD (p + i) 0 = data.getD (p - o + i) 0) →
      serialExt (data.take p) (p - o) l = data.take (p + l) := by
  intro l
  induction l with
  | zero => intro p _ _ _ _; rfl
  | succ l ih =>
    intro p ho1 ho2 hpl hmatch
    rw [show serialExt (data.take p) (p - o) (l + 1) =
      serialExt (data.take p ++ [(data.take p).getD (p - o) 0]) (p - o + 1) l from rfl]
    have hg : (data.take p).getD (p - o) 0 = data.getD p 0 := by
      rw [getD_take (by omega)]
      have := hmatch 0 (by omega)
      simpa using this.symm
    rw [hg, ← take_succ_getD (by omega)]
    have hsrc : p - o + 1 = (p + 1) - o := by omega
    rw [hsrc]
    rw [ih (p + 1) (by omega) (by omega) (by omega) ?_]
    · rw [show p + 1 + l = p + (l + 1) from by omega]
    · intro i hi
      have := hmatch (i + 1) (by omega)
      rw [show p + (i + 1) = p + 1 + i from by omega] at this
      rw [show p - o + (i + 1) = p + 1 - o + i from by omega] at this
      exact this

theorem lv1Tokens_exec (data : List Nat) :
    ∀ n pos anchor, data.length - pos = n → anchor ≤ pos → pos ≤ data.length →
      execToks (data.take anchor) (lv1Tokens data pos anchor) = data := by
  intro n
  induction n using Nat.strong_induction_on with
  | _ n ih =>
    intro pos anchor hn ha hp
    rw [lv1Tokens]
    by_cases hpos : pos < data.length
    · rw [dif_pos hpos]
      cases hm : find_match_lv1 data pos 8191 3 264 with
      | none =>
        simp only []
        exact ih (data.length - (pos + 1)) (by omega) (pos + 1) anchor rfl (by omega) (by omega)
      | some r =>
        obtain ⟨mo, ml⟩ := r
        simp only []
        obtain ⟨ho1, ho2, _, hml3, _, hmlN, hmat⟩ := find_match_facts hm
        rw [execToks_append]
        have hlit : execToks (data.take anchor)
            (if anchor < pos then litChunks (pySlice data anchor pos) else []) =
            data.take pos := by
          by_cases hap : anchor < pos
          · rw [if_pos hap, execToks_litChunks (pySlice data anchor pos).length _ _ rfl]
            rw [pySlice]
            conv_rhs => rw [← List.take_append_drop anchor (data.take pos)]
            rw [List.take_take]
            rw [show min anchor pos = anchor from by omega]
          · rw [if_neg hap]
            have : anchor = pos := by omega
            rw [this]
            rfl
        rw [hlit]
        rw [show execToks (data.take pos)
            (Tok.mat mo ml :: lv1Tokens data (pos + ml) (pos + ml)) =
          execToks (execTok (data.take pos) (Tok.mat mo ml))
            (lv1Tokens data (pos + ml) (pos + ml)) from rfl]
        have hexec : execTok (data.take pos) (Tok.mat mo ml) = data.take (pos + ml) := by
          rw [show execTok (data.take pos) (Tok.mat mo ml) =
            serialExt (data.take pos) ((data.take pos).length - mo) ml from rfl]
          have hplen : (data.take pos).length = pos := by
            rw [List.length_take]
            omega
          rw [hplen]
          exact serialExt_take data mo ml pos ho1 ho2 hmlN hmat
        rw [hexec]
        exact ih (data.length - (pos + ml)) (by omega) (pos + ml) (pos + ml) rfl (le_refl _)
          (by omega)
    · rw [dif_neg hpos]
      by_cases hal : anchor < data.length
      · rw [if_pos hal, execToks_litChunks (data.drop anchor).length _ _ rfl,
          List.take_append_drop]
      · rw [if_neg hal]
        have : anchor = data.length := by omega
        rw [this, List.take_length]
        rfl

/-! ### Well-formedness of the emitted token stream -/

theorem litChunks_outLen : ∀ n (bs : List Nat), bs.length = n →
    toksOutLen (litChunks bs) = bs.length := by
  intro n
  induction n using Nat.strong_induction_on with
  | _ n ih =>
    intro bs hn
    rw [litChunks]
    by_cases h : 0 < bs.length
    · rw [if_pos h]
      rw [show toksOutLen (Tok.lit (bs.take (min 32 bs.length)) ::
            litChunks (bs.drop (min 32 bs.length))) =
          (bs.take (min 32 bs.length)).length +
            toksOutLen (litChunks (bs.drop (min 32 bs.length))) from rfl]
      rw [ih (bs.length - min 32 bs.length) (by omega) _ (by simp)]
      rw [List.length_take, List.length_drop]
      omega
    · rw [if_neg h]
      rw [show toksOutLen [] = 0 from rfl]
      omega

theorem litChunks_ok : ∀ n (bs : List Nat) (p : Nat), bs.length = n →
    toksOK p (litChunks bs) := by
  intro n
  induction n using Nat.strong_induction_on with
  | _ n ih =>
    intro bs p hn
    rw [litChunks]
    by_cases h : 0 < bs.length
    · rw [if_pos h]
      refine ⟨?_, ih (bs.length - min 32 bs.length) (by omega) _ _ (by simp)⟩
      rw [show tokOK p (Tok.lit (bs.take (min 32 bs.length))) =
        (1 ≤ (bs.take (min 32 bs.length)).length ∧
          (bs.take (min 32 bs.length)).length ≤ 32) from rfl]
      rw [List.length_take]
      omega
    · rw [if_neg h]
      exact trivial

theorem pySlice_length {data : List Nat} {a p : Nat} (hp : p ≤ data.length) :
    (pySlice data a p).length = p - a := by
  rw [pySlice, List.length_drop, List.length_take]
  omega

theorem lv1Tokens_ok (data : List Nat) :
    ∀ n pos anchor, data.length - pos = n → anchor ≤ pos → pos ≤ data.length →
      toksOK anchor (lv1Tokens data pos anchor) := by
  intro n
  induction n using Nat.strong_induction_on with
  | _ n ih =>
    intro pos anchor hn ha hp
    rw [lv1Tokens]
    by_cases hpos : pos < data.length
    · rw [dif_pos hpos]
      cases hm : find_match_lv1 data pos 8191 3 264 with
      | none =>
        simp only []
        exact ih (data.length - (pos + 1)) (by omega) (pos + 1) anchor rfl (by omega) (by omega)
      | some r =>
        obtain ⟨mo, ml⟩ := r
        simp only []
        obtain ⟨ho1, ho2, ho3, hml3, hml264, hmlN, _⟩ := find_match_facts hm
        have hrest := ih (data.length - (pos + ml)) (by omega) (pos + ml) (pos + ml) rfl
          (le_refl _) (by omega)
        have hmat : toksOK pos (Tok.mat mo ml :: lv1Tokens data (pos + ml) (pos + ml)) := by
          refine ⟨?_, ?_⟩
          · rw [show tokOK pos (Tok.mat mo ml) =
              (1 ≤ mo ∧ mo ≤ pos ∧ mo ≤ 8191 ∧ 3 ≤ ml ∧ ml ≤ 264) from rfl]
            exact ⟨ho1, ho2, ho3, hml3, hml264⟩
          · rw [show tokOutLen (Tok.mat mo ml) = ml from rfl]
            exact hrest
        by_cases hap : anchor < pos
        · rw [if_pos hap]
          refine toksOK_append (litChunks_ok (pySlice data anchor pos).length _ _ rfl) ?_
          rw [litChunks_outLen (pySlice data anchor pos).length _ rfl,
            pySlice_length (by omega)]
          rw [show anchor + (pos - anchor) = pos from by omega]
          exact hmat
        · rw [if_neg hap]
          rw [List.nil_append]
          rw [show anchor = pos from by omega]
          exact hmat
    · rw [dif_neg hpos]
      by_cases hal : anchor < data.length
      · rw [if_pos hal]
        exact litChunks_ok (data.drop anchor).length _ _ rfl
      · rw [if_neg hal]
        exact trivial

theorem litChunks_cons {bs : List Nat} (h : 0 < bs.length) :
    litChunks bs = .lit (bs.take (min 32 bs.length)) :: litChunks (bs.drop (min 32 bs.length)) := by
  rw [litChunks, if_pos h]

/-- From the initial state, the first token the compressor emits is always a
literal chunk (a match at position 0 is impossible). -/
theorem lv1Tokens_head (data : List Nat) (h0 : 0 < data.length) :
    ∀ n pos, data.length - pos = n → pos ≤ data.length →
      ∃ bs rest, lv1Tokens data pos 0 = .lit bs :: rest ∧ 1 ≤ bs.length ∧ bs.length ≤ 32 := by
  intro n
  induction n using Nat.strong_induction_on with
  | _ n ih =>
    intro pos hn hp
    rw [lv1Tokens]
    by_cases hpos : pos < data.length
    · rw [dif_pos hpos]
      cases hm : find_match_lv1 data pos 8191 3 264 with
      | none =>
        simp only []
        exact ih (data.length - (pos + 1)) (by omega) (pos + 1) rfl (by omega)
      | some r =>
        obtain ⟨mo, ml⟩ := r
        simp only []
        obtain ⟨ho1, ho2, _, _, _, _, _⟩ := find_match_facts hm
        have hap : 0 < pos := by omega
        rw [if_pos hap]
        have hsl : 0 < (pySlice data 0 pos).length := by
          rw [pySlice_length (by omega)]
          omega
        rw [litChunks_cons hsl, List.cons_append]
        refine ⟨_, _, rfl, ?_, ?_⟩ <;>
          (rw [List.length_take]; rw [pySlice_length (by omega)] <;> omega)
    · rw [dif_neg hpos]
      rw [if_pos (by omega : (0 : Nat) < data.length)]
      rw [List.drop_zero, litChunks_cons h0]
      refine ⟨_, _, rfl, ?_, ?_⟩ <;> (rw [List.length_take]; omega)

/-! ### Decoder-side list helpers -/

theorem pyGetNat_ok {l : List Nat} {i : Nat} (h : i < l.length) :
    pyGetNat l i = .ok (l.getD i 0) := by
  unfold pyGetNat
  rw [if_pos h]

theorem getD_append_at (a b : List Nat) (i : Nat) :
    (a ++ b).getD (a.length + i) 0 = b.getD i 0 := by
  rw [List.getD_append_right _ _ _ _ (by omega)]
  congr 1
  omega

theorem pySlice_mid (a b c : List Nat) :
    pySlice (a ++ b ++ c) a.length (a.length + b.length) = b := by
  rw [pySlice, List.append_assoc, List.take_append_eq_append_take,
    List.take_all_of_le (by omega)]
  rw [show a.length + b.length - a.length = b.length from by omega]
  rw [List.take_append_eq_append_take, List.take_all_of_le (by omega)]
  rw [show b.length - b.length = 0 from by omega, List.take_zero, List.append_nil]
  exact List.drop_left a b

theorem pySetSlice_exact (D : List Nat) (m : Nat) (bs : List Nat) (hr : bs.length ≤ m) :
    pySetSlice (D ++ List.replicate m 0) D.length (D.length + bs.length) bs =
      D ++ bs ++ List.replicate (m - bs.length) 0 := by
  rw [pySetSlice]
  simp only [List.length_append, List.length_replicate]
  rw [show min D.length (D.length + m) = D.length from by omega]
  rw [show max D.length (min (D.length + bs.length) (D.length + m)) = D.length + bs.length
    from by omega]
  rw [List.take_left]
  rw [List.drop_append_eq_append_drop]
  rw [List.drop_eq_nil_of_le (by omega), List.nil_append]
  rw [List.drop_replicate]
  rw [show D.length + bs.length - D.length = bs.length from by omega, List.append_assoc]

theorem bitFuseLong : ∀ r, r < 32 → (224 ||| r) >>> 5 = 7 ∧ (224 ||| r) &&& 31 = r := by decide

theorem fetch_guard (pre : List Nat) (t : Tok) (ts : List Tok) :
    (pre.length + (encTok t).length < (pre ++ encToks (t :: ts)).length) ↔ ts ≠ [] := by
  rw [show encToks (t :: ts) = encTok t ++ encToks ts from rfl]
  simp only [List.length_append]
  constructor
  · intro h hts
    rw [hts] at h
    rw [show encToks [] = [] from rfl] at h
    simp at h
  · intro h
    have := encToks_length_pos h
    omega

theorem fetch_next (pre : List Nat) (t : Tok) (ts : List Tok) :
    (pre ++ encToks (t :: ts)).getD (pre.length + (encTok t).length) 0 =
      (encToks ts).getD 0 0 := by
  rw [show encToks (t :: ts) = encTok t ++ encToks ts from rfl, ← List.append_assoc]
  rw [show pre.length + (encTok t).length = (pre ++ encTok t).length + 0 from by simp]
  exact getD_append_at _ _ 0

/-- **Main decoder run lemma.**  Feeding the instrumented level-1 decoder
loop the encoding of a well-formed token list (with the opcode of the first
token already fetched, and the output buffer holding the already-decoded
prefix `D`) decodes exactly the tokens' semantics, ends with the output
cursor at `N`, and records exactly the matches' `_memmove` calls. -/
theorem lv1LoopTr_run :
    ∀ (ts : List Tok) (pre D : List Nat) (N : Nat), ts ≠ [] → toksOK D.length ts →
      D.length + toksOutLen ts = N →
      lv1LoopTr (pre ++ encToks ts) ((encToks ts).getD 0 0) (pre.length + 1)
        (D ++ List.replicate (N - D.length) 0) D.length =
      (.ok (execToks D ts, N), traceOf D.length ts) := by
  intro ts
  induction ts with
  | nil => intro pre D N h _ _; exact absurd rfl h
  | cons t ts ih =>
    intro pre D N _ hok hlen
    have hok1 := hok.1
    have hok2 := hok.2
    cases t with
    | lit bs =>
      obtain ⟨hbs1, hbs2⟩ : 1 ≤ bs.length ∧ bs.length ≤ 32 := hok1
      rw [show toksOutLen (Tok.lit bs :: ts) = bs.length + toksOutLen ts from rfl] at hlen
      rw [show tokOutLen (Tok.lit bs) = bs.length from rfl] at hok2
      have hop : (encToks (Tok.lit bs :: ts)).getD 0 0 = bs.length - 1 := by
        rw [show encToks (Tok.lit bs :: ts) = encTok (Tok.lit bs) ++ encToks ts from rfl]
        rfl
      rw [hop, lv1LoopTr]
      rw [if_pos (shiftRight5_eq_zero (by omega))]
      simp only []
      rw [show 1 + (bs.length - 1) = bs.length from by omega]
      have hslice : pySlice (pre ++ encToks (Tok.lit bs :: ts)) (pre.length + 1)
          (pre.length + 1 + bs.length) = bs := by
        rw [show pre ++ encToks (Tok.lit bs :: ts) =
            (pre ++ [bs.length - 1]) ++ bs ++ encToks ts from by
          rw [show encToks (Tok.lit bs :: ts) = encTok (Tok.lit bs) ++ encToks ts from rfl]
          simp [encTok]]
        rw [show pre.length + 1 = (pre ++ [bs.length - 1]).length from by simp]
        exact pySlice_mid _ _ _
      rw [hslice]
      rw [pySetSlice_exact D (N - D.length) bs (by omega)]
      rw [show pre.length + 1 + bs.length = pre.length + (encTok (Tok.lit bs)).length from by
        rw [encTok_length_lit]; omega]
      by_cases hts : ts = []
      · subst hts
        rw [dif_neg (by rw [fetch_guard]; simp)]
        rw [show toksOutLen ([] : List Tok) = 0 from rfl] at hlen
        rw [show N - D.length - bs.length = 0 from by omega]
        rw [show D.length + bs.length = N from by omega]
        rw [List.replicate_zero, List.append_nil]
        rfl
      · rw [dif_pos ((fetch_guard pre (Tok.lit bs) ts).mpr hts)]
        rw [fetch_next pre (Tok.lit bs) ts]
        rw [show pre ++ encToks (Tok.lit bs :: ts) = (pre ++ encTok (Tok.lit bs)) ++ encToks ts
          from by
            rw [show encToks (Tok.lit bs :: ts) = encTok (Tok.lit bs) ++ encToks ts from rfl]
            rw [List.append_assoc]]
        rw [show pre.length + (encTok (Tok.lit bs)).length + 1 =
          (pre ++ encTok (Tok.lit bs)).length + 1 from by simp]
        rw [show D ++ bs ++ List.replicate (N - D.length - bs.length) 0 =
          (D ++ bs) ++ List.replicate (N - (D ++ bs).length) 0 from by
            rw [List.length_append]
            rw [show N - D.length - bs.length = N - (D.length + bs.length) from by omega]]
        rw [show D.length + bs.length = (D ++ bs).length from by simp]
        rw [ih (pre ++ encTok (Tok.lit bs)) (D ++ bs) N hts
          (by rw [List.length_append]; exact hok2)
          (by rw [List.length_append]; omega)]
        rw [List.length_append]
        rfl
    | mat o l =>
      obtain ⟨ho1, ho2, ho3, hl3, hl264⟩ :
          1 ≤ o ∧ o ≤ D.length ∧ o ≤ 8191 ∧ 3 ≤ l ∧ l ≤ 264 := hok1
      rw [show toksOutLen (Tok.mat o l :: ts) = l + toksOutLen ts from rfl] at hlen
      rw [show tokOutLen (Tok.mat o l) = l from rfl] at hok2
      obtain ⟨hRlt, hRsplit⟩ := bitSplit13 (show o - 1 < 8192 from by omega)
      have hmem := @memmove_ok D (List.replicate (N - D.length) 0) o l ho1 ho2
        (by rw [List.length_replicate]; omega)
      rw [List.drop_replicate] at hmem
      by_cases hshort : l ≤ 8
      · -- short match
        have henc : encTok (Tok.mat o l) =
            [((l - 2) <<< 5) ||| ((o - 1) >>> 8), (o - 1) &&& 255] := by
          rw [show encTok (Tok.mat o l) = emit_match_lv1 [] o l from rfl]
          unfold emit_match_lv1
          rw [if_pos hshort]
          rfl
        obtain ⟨hfuse1, hfuse2⟩ := bitFuse (l - 2) (by omega) ((o - 1) >>> 8) hRlt
        have hop : (encToks (Tok.mat o l :: ts)).getD 0 0 =
            ((l - 2) <<< 5) ||| ((o - 1) >>> 8) := by
          rw [show encToks (Tok.mat o l :: ts) = encTok (Tok.mat o l) ++ encToks ts from rfl,
            henc]
          rfl
        have hlenc : (encTok (Tok.mat o l)).length = 2 := by rw [henc]; rfl
        rw [hop, lv1LoopTr]
        rw [if_neg (by rw [hfuse1]; omega)]
        rw [if_neg (by rw [hfuse1]; omega)]
        have hb1 : pyGetNat (pre ++ encToks (Tok.mat o l :: ts)) (pre.length + 1) =
            .ok ((o - 1) &&& 255) := by
          rw [pyGetNat_ok (by
            rw [show encToks (Tok.mat o l :: ts) = encTok (Tok.mat o l) ++ encToks ts from rfl]
            simp only [List.length_append, hlenc]
            omega)]
          rw [getD_append_at pre _ 1]
          rw [show encToks (Tok.mat o l :: ts) = encTok (Tok.mat o l) ++ encToks ts from rfl,
            henc]
          rfl
        rw [hb1]
        simp only []
        rw [hfuse2, hfuse1]
        rw [show 2 + (l - 2) = l from by omega]
        rw [hRsplit]
        rw [show o - 1 + 1 = o from by omega]
        rw [hmem]
        simp only []
        rw [show pre.length + 1 + 1 = pre.length + (encTok (Tok.mat o l)).length from by
          rw [hlenc]]
        by_cases hts : ts = []
        · subst hts
          rw [dif_neg (by rw [fetch_guard]; simp)]
          rw [show toksOutLen ([] : List Tok) = 0 from rfl] at hlen
          rw [show N - D.length - l = 0 from by omega]
          rw [show D.length + l = N from by omega]
          rw [List.replicate_zero, List.append_nil]
          rfl
        · rw [dif_pos ((fetch_guard pre (Tok.mat o l) ts).mpr hts)]
          rw [fetch_next pre (Tok.mat o l) ts]
          rw [show pre ++ encToks (Tok.mat o l :: ts) =
            (pre ++ encTok (Tok.mat o l)) ++ encToks ts from by
              rw [show encToks (Tok.mat o l :: ts) = encTok (Tok.mat o l) ++ encToks ts
                from rfl]
              rw [List.append_assoc]]
          rw [show pre.length + 1 + 2 = (pre ++ encTok (Tok.mat o l)).length + 1 from by
            rw [List.length_append, hlenc]]
          rw [show serialExt D (D.length - o) l ++ List.replicate (N - D.length - l) 0 =
            serialExt D (D.length - o) l ++
              List.replicate (N - (serialExt D (D.length - o) l).length) 0 from by
            rw [serialExt_length]
            rw [show N - D.length - l = N - (D.length + l) from by omega]]
          rw [show D.length + l = (serialExt D (D.length - o) l).length from by
            rw [serialExt_length]]
          rw [ih (pre ++ encTok (Tok.mat o l)) (serialExt D (D.length - o) l) N hts
            (by rw [serialExt_length]; exact hok2)
            (by rw [serialExt_length]; omega)]
          rw [serialExt_length]
          rfl
      · -- long match
        have henc : encTok (Tok.mat o l) =
            [224 ||| ((o - 1) >>> 8), (l - 9) &&& 255, (o - 1) &&& 255] := by
          rw [show encTok (Tok.mat o l) = emit_match_lv1 [] o l from rfl]
          unfold emit_match_lv1
          rw [if_neg hshort]
          rfl
        obtain ⟨hfuse1, hfuse2⟩ := bitFuseLong ((o - 1) >>> 8) hRlt
        have hml : (l - 9) &&& 255 = l - 9 := by rw [and255_eq_mod]; omega
        have hop : (encToks (Tok.mat o l :: ts)).getD 0 0 = 224 ||| ((o - 1) >>> 8) := by
          rw [show encToks (Tok.mat o l :: ts) = encTok (Tok.mat o l) ++ encToks ts from rfl,
            henc]
          rfl
        have hlenc : (encTok (Tok.mat o l)).length = 3 := by rw [henc]; rfl
        rw [hop, lv1LoopTr]
        rw [if_neg (by rw [hfuse1]; omega)]
        rw [if_pos hfuse1]
        have hdalen : pre.length + 3 ≤ (pre ++ encToks (Tok.mat o l :: ts)).length := by
          rw [show encToks (Tok.mat o l :: ts) = encTok (Tok.mat o l) ++ encToks ts from rfl]
          simp only [List.length_append, hlenc]
          omega
        have hb1 : pyGetNat (pre ++ encToks (Tok.mat o l :: ts)) (pre.length + 1) =
            .ok ((l - 9) &&& 255) := by
          rw [pyGetNat_ok (by omega)]
          rw [getD_append_at pre _ 1]
          rw [show encToks (Tok.mat o l :: ts) = encTok (Tok.mat o l) ++ encToks ts from rfl,
            henc]
          rfl
        have hb2 : pyGetNat (pre ++ encToks (Tok.mat o l :: ts)) (pre.length + 1 + 1) =
            .ok ((o - 1) &&& 255) := by
          rw [show pre.length + 1 + 1 = pre.length + 2 from by omega]
          rw [pyGetNat_ok (by omega)]
          rw [getD_append_at pre _ 2]
          rw [show encToks (Tok.mat o l :: ts) = encTok (Tok.mat o l) ++ encToks ts from rfl,
            henc]
          rfl
        rw [hb1]
        simp only []
        rw [hb2]
        simp only []
        rw [hfuse2, hml]
        rw [show 9 + (l - 9) = l from by omega]
        rw [hRsplit]
        rw [show o - 1 + 1 = o from by omega]
        rw [hmem]
        simp only []
        rw [show pre.length + 1 + 2 = pre.length + (encTok (Tok.mat o l)).length from by
          rw [hlenc]]
        by_cases hts : ts = []
        · subst hts
          rw [dif_neg (by rw [fetch_guard]; simp)]
          rw [show toksOutLen ([] : List Tok) = 0 from rfl] at hlen
          rw [show N - D.length - l = 0 from by omega]
          rw [show D.length + l = N from by omega]
          rw [List.replicate_zero, List.append_nil]
          rfl
        · rw [dif_pos ((fetch_guard pre (Tok.mat o l) ts).mpr hts)]
          rw [fetch_next pre (Tok.mat o l) ts]
          rw [show pre ++ encToks (Tok.mat o l :: ts) =
            (pre ++ encTok (Tok.mat o l)) ++ encToks ts from by
              rw [show encToks (Tok.mat o l :: ts) = encTok (Tok.mat o l) ++ encToks ts
                from rfl]
              rw [List.append_assoc]]
          rw [show pre.length + 1 + 3 = (pre ++ encTok (Tok.mat o l)).length + 1 from by
            rw [List.length_append, hlenc]]
          rw [show serialExt D (D.length - o) l ++ List.replicate (N - D.length - l) 0 =
            serialExt D (D.length - o) l ++
              List.replicate (N - (serialExt D (D.length - o) l).length) 0 from by
            rw [serialExt_length]
            rw [show N - D.length - l = N - (D.length + l) from by omega]]
          rw [show D.length + l = (serialExt D (D.length - o) l).length from by
            rw [serialExt_length]]
          rw [ih (pre ++ encTok (Tok.mat o l)) (serialExt D (D.length - o) l) N hts
            (by rw [serialExt_length]; exact hok2)
            (by rw [serialExt_length]; omega)]
          rw [serialExt_length]
          rfl

/-! ### Frame-level glue for the round trip -/

theorem cons_getD_drop {l : List Nat} (h : l ≠ []) : l.getD 0 0 :: l.drop 1 = l := by
  cases l with
  | nil => exact absurd rfl h
  | cons a l => rfl

theorem and31_eq {y : Nat} (h : y ≤ 31) : y &&& 31 = y := by
  have := Nat.and_pow_two_sub_one_eq_mod y 5
  norm_num at this
  omega

theorem zero_or_eq (y : Nat) : 0 ||| y = y := Nat.zero_or y

/-- The shape of a successful non-empty compression: little-endian length
header followed by the body, whose first byte is fused unchanged (the first
token is a literal, so its opcode has zero top bits). -/
theorem compress_ok_structure (x : List Nat) (hx : ¬ x.length = 0)
    (hbig : x.length < 4294967296) :
    compress x 1 = .ok ([x.length % 256, x.length / 256 % 256, x.length / 65536 % 256,
      x.length / 16777216 % 256] ++ encToks (lv1Tokens x 0 0)) := by
  obtain ⟨bs, rest, hts, hbs1, hbs2⟩ :=
    lv1Tokens_head x (by omega) (x.length - 0) 0 rfl (by omega)
  have hhead : (encToks (lv1Tokens x 0 0)).getD 0 0 = bs.length - 1 := by
    rw [hts]
    rw [show encToks (Tok.lit bs :: rest) = encTok (Tok.lit bs) ++ encToks rest from rfl]
    rfl
  have hne : 0 < (encToks (lv1Tokens x 0 0)).length := by
    rw [hts]
    exact encToks_length_pos (by simp)
  unfold compress
  rw [if_neg (by norm_num), if_neg hx, if_pos rfl]
  simp only []
  rw [fastlz_body x hx]
  unfold packU32
  rw [if_pos hbig]
  simp only [Except.map]
  rw [if_pos hne]
  rw [show ((1 - 1) <<< 5 : Nat) = 0 from rfl, zero_or_eq]
  rw [and31_eq (by rw [hhead]; omega)]
  rw [cons_getD_drop (by intro hnil; rw [hnil] at hne; simp at hne)]

/-- Inversion: any successful non-empty compression has that shape. -/
theorem compress_ok_inv {x f : List Nat} (hx : ¬ x.length = 0)
    (hf : compress x 1 = .ok f) :
    x.length < 4294967296 ∧
    f = [x.length % 256, x.length / 256 % 256, x.length / 65536 % 256,
      x.length / 16777216 % 256] ++ encToks (lv1Tokens x 0 0) := by
  by_cases hbig : x.length < 4294967296
  · refine ⟨hbig, ?_⟩
    rw [compress_ok_structure x hx hbig] at hf
    injection hf with h2
    exact h2.symm
  · exfalso
    unfold compress at hf
    rw [if_neg (by norm_num), if_neg hx, if_pos rfl] at hf
    simp only [] at hf
    unfold packU32 at hf
    rw [if_neg hbig] at hf
    exact absurd hf (by simp [Except.map])

theorem pack_length (n : Nat) :
    ([n % 256, n / 256 % 256, n / 65536 % 256, n / 16777216 % 256] : List Nat).length = 4 := rfl

theorem leU32_pack {n : Nat} (h : n < 4294967296) :
    leU32 [n % 256, n / 256 % 256, n / 65536 % 256, n / 16777216 % 256] = n := by
  unfold leU32
  simp only [List.getD]
  norm_num
  omega

/-- Trace entries of a well-formed token stream satisfy the decoder
invariants. -/
theorem traceOf_props : ∀ (ts : List Tok) (p : Nat), toksOK p ts →
    ∀ e ∈ traceOf p ts, 1 ≤ e.2.1 ∧ e.2.1 ≤ e.1 ∧ 3 ≤ e.2.2 ∧ e.2.2 ≤ 264 := by
  intro ts
  induction ts with
  | nil => intro p _ e he; rw [show traceOf p [] = [] from rfl] at he; simp at he
  | cons t ts ih =>
    intro p hok e he
    cases t with
    | lit bs =>
      rw [show traceOf p (Tok.lit bs :: ts) = traceOf (p + bs.length) ts from rfl] at he
      exact ih _ hok.2 e he
    | mat o l =>
      rw [show traceOf p (Tok.mat o l :: ts) = (p, o, l) :: traceOf (p + l) ts from rfl] at he
      rcases List.mem_cons.mp he with he | he
      · obtain ⟨h1, h2, _, h4, h5⟩ :
            1 ≤ o ∧ o ≤ p ∧ o ≤ 8191 ∧ 3 ≤ l ∧ l ≤ 264 := hok.1
        rw [he]
        exact ⟨h1, h2, h4, h5⟩
      · exact ih _ hok.2 e he

/-- Decoding the body of a non-empty compression with the instrumented
decoder: output, final cursor and trace. -/
theorem decode_tr_of_tokens (x : List Nat) (hx : ¬ x.length = 0) :
    fastlz_decompress_lv1_tr (encToks (lv1Tokens x 0 0)) x.length =
      (.ok (x, x.length), traceOf 0 (lv1Tokens x 0 0)) := by
  obtain ⟨bs, rest, hts, hbs1, hbs2⟩ :=
    lv1Tokens_head x (by omega) (x.length - 0) 0 rfl (by omega)
  have htsne : lv1Tokens x 0 0 ≠ [] := by rw [hts]; simp
  have hne : 0 < (encToks (lv1Tokens x 0 0)).length := encToks_length_pos htsne
  have hexec : execToks [] (lv1Tokens x 0 0) = x := by
    have := lv1Tokens_exec x (x.length - 0) 0 0 rfl (le_refl _) (by omega)
    rw [show x.take 0 = [] from rfl] at this
    exact this
  have houtlen : toksOutLen (lv1Tokens x 0 0) = x.length := by
    have := execToks_length (lv1Tokens x 0 0) []
    rw [hexec] at this
    simpa using this.symm
  unfold fastlz_decompress_lv1_tr
  rw [if_neg hx]
  rw [pyGetNat_ok hne]
  have hrun := lv1LoopTr_run (lv1Tokens x 0 0) [] [] x.length htsne
    (by
      have := lv1Tokens_ok x (x.length - 0) 0 0 rfl (le_refl _) (by omega)
      exact this)
    (by rw [show ([] : List Nat).length = 0 from rfl]; omega)
  rw [show ([] : List Nat) ++ encToks (lv1Tokens x 0 0) = encToks (lv1Tokens x 0 0) from rfl]
    at hrun
  rw [hexec] at hrun
  exact hrun

/-! ## Claim C1: round trip at level 1 -/

/-- **C1** — For every byte sequence `x` with `0 ≤ |x| ≤ 2²⁰`,
`decompress (compress x 1) = x`, the frame's fused byte 4 included. -/
theorem c1_roundtrip (x : List Nat) (hbytes : ∀ b ∈ x, b < 256)
    (hlen : x.length ≤ 1048576) :
    (compress x 1).bind decompress = .ok x := by
  by_cases hx : x.length = 0
  · have hnil : x = [] := List.length_eq_zero.mp hx
    subst hnil
    rw [show compress [] 1 = .ok [0, 0, 0, 0, 0] from rfl]
    simp only [Except.bind]
    unfold decompress
    rw [if_neg (by norm_num)]
    simp only []
    rw [show leU32 (pySlice [0, 0, 0, 0, 0] 0 4) = 0 from rfl]
    rw [if_neg (by rw [badlen_iff]; simp)]
    rw [show pyGetNat [0, 0, 0, 0, 0] 4 = .ok 0 from rfl]
    simp only []
    rfl
  · have hbig : x.length < 4294967296 := by omega
    rw [compress_ok_structure x hx hbig]
    simp only [Except.bind]
    obtain ⟨bs, rest, hts, hbs1, hbs2⟩ :=
      lv1Tokens_head x (by omega) (x.length - 0) 0 rfl (by omega)
    have htsne : lv1Tokens x 0 0 ≠ [] := by rw [hts]; simp
    have hne : 0 < (encToks (lv1Tokens x 0 0)).length := encToks_length_pos htsne
    have hhead : (encToks (lv1Tokens x 0 0)).getD 0 0 = bs.length - 1 := by
      rw [hts]
      rw [show encToks (Tok.lit bs :: rest) = encTok (Tok.lit bs) ++ encToks rest from rfl]
      rfl
    have hlow : x.length ≤ 132 * (encToks (lv1Tokens x 0 0)).length := by
      have h1 := compressLv1Loop_lower x (x.length - 0) 0 0 [] rfl (by omega) (by omega)
        (by simp)
      rw [compressLv1Loop_eq_tokens x (x.length - 0) 0 0 [] rfl] at h1
      simpa using h1
    unfold decompress
    rw [if_neg (by simp only [List.length_append, pack_length]; omega)]
    simp only []
    have hslice : pySlice ([x.length % 256, x.length / 256 % 256, x.length / 65536 % 256,
        x.length / 16777216 % 256] ++ encToks (lv1Tokens x 0 0)) 0 4 =
        [x.length % 256, x.length / 256 % 256, x.length / 65536 % 256,
          x.length / 16777216 % 256] := by
      rw [pySlice, List.drop_zero, show (4 : Nat) = ([x.length % 256, x.length / 256 % 256,
        x.length / 65536 % 256, x.length / 16777216 % 256] : List Nat).length from rfl,
        List.take_left]
    rw [hslice, leU32_pack hbig]
    rw [if_neg (by
      rw [badlen_iff]
      simp only [List.length_append, pack_length]
      omega)]
    have hb4 : pyGetNat ([x.length % 256, x.length / 256 % 256, x.length / 65536 % 256,
        x.length / 16777216 % 256] ++ encToks (lv1Tokens x 0 0)) 4 =
        .ok ((encToks (lv1Tokens x 0 0)).getD 0 0) := by
      rw [pyGetNat_ok (by simp only [List.length_append, pack_length]; omega)]
      rw [show (4 : Nat) = ([x.length % 256, x.length / 256 % 256, x.length / 65536 % 256,
        x.length / 16777216 % 256] : List Nat).length + 0 from rfl]
      rw [getD_append_at]
    rw [hb4]
    simp only []
    rw [hhead, shiftRight5_eq_zero (by omega)]
    rw [if_pos rfl]
    have hdrop : ([x.length % 256, x.length / 256 % 256, x.length / 65536 % 256,
        x.length / 16777216 % 256] ++ encToks (lv1Tokens x 0 0)).drop 4 =
        encToks (lv1Tokens x 0 0) := by
      rw [show (4 : Nat) = ([x.length % 256, x.length / 256 % 256, x.length / 65536 % 256,
        x.length / 16777216 % 256] : List Nat).length from rfl, List.drop_left]
    rw [hdrop]
    rw [fastlz_decompress_lv1_eq_tr, decode_tr_of_tokens x hx]
    rfl

/-- Witness for C1 at `x = [7,7,7,7,7,7,7]` (compresses through a literal
token and a short match). -/
theorem c1_witness :
    (compress [7, 7, 7, 7, 7, 7, 7] 1).bind decompress = .ok [7, 7, 7, 7, 7, 7, 7] :=
  c1_roundtrip [7, 7, 7, 7, 7, 7, 7] (by decide) (by decide)

/-! ## Claim C5: decoder invariants on encoder output -/

/-- **C5** — While the level-1 decoder processes `compress(x, 1)`, every
match token's backward distance `δ` satisfies `1 ≤ δ ≤ out_pos` at the
moment of its overlap-copy, every match length lies in `[3, 264]`, and at
loop termination `out_pos = |x|` (the second component of the instrumented
decoder's result is the final output cursor). -/
theorem c5_decoder_invariants (x f : List Nat) (hf : compress x 1 = .ok f) :
    ∃ tr, fastlz_decompress_lv1_tr (f.drop 4) (leU32 (pySlice f 0 4)) =
        (.ok (x, x.length), tr) ∧
      ∀ e ∈ tr, 1 ≤ e.2.1 ∧ e.2.1 ≤ e.1 ∧ 3 ≤ e.2.2 ∧ e.2.2 ≤ 264 := by
  by_cases hx : x.length = 0
  · have hnil : x = [] := List.length_eq_zero.mp hx
    subst hnil
    have hfv : f = [0, 0, 0, 0, 0] := by
      have : compress [] 1 = .ok [0, 0, 0, 0, 0] := rfl
      rw [this] at hf
      injection hf with h2
      exact h2.symm
    subst hfv
    exact ⟨[], rfl, by simp⟩
  · obtain ⟨hbig, hfv⟩ := compress_ok_inv hx hf
    subst hfv
    refine ⟨traceOf 0 (lv1Tokens x 0 0), ?_, ?_⟩
    · have hdrop : ([x.length % 256, x.length / 256 % 256, x.length / 65536 % 256,
          x.length / 16777216 % 256] ++ encToks (lv1Tokens x 0 0)).drop 4 =
          encToks (lv1Tokens x 0 0) := by
        rw [show (4 : Nat) = ([x.length % 256, x.length / 256 % 256, x.length / 65536 % 256,
          x.length / 16777216 % 256] : List Nat).length from rfl, List.drop_left]
      have hslice : pySlice ([x.length % 256, x.length / 256 % 256, x.length / 65536 % 256,
          x.length / 16777216 % 256] ++ encToks (lv1Tokens x 0 0)) 0 4 =
          [x.length % 256, x.length / 256 % 256, x.length / 65536 % 256,
            x.length / 16777216 % 256] := by
        rw [pySlice, List.drop_zero, show (4 : Nat) = ([x.length % 256,
          x.length / 256 % 256, x.length / 65536 % 256,
          x.length / 16777216 % 256] : List Nat).length from rfl, List.take_left]
      rw [hdrop, hslice, leU32_pack hbig]
      exact decode_tr_of_tokens x hx
    · exact traceOf_props (lv1Tokens x 0 0) 0
        (lv1Tokens_ok x (x.length - 0) 0 0 rfl (le_refl _) (by omega))

theorem c5_witness :
    ∃ tr, fastlz_decompress_lv1_tr (([7, 0, 0, 0, 0, 7, 128, 0] : List Nat).drop 4)
        (leU32 (pySlice [7, 0, 0, 0, 0, 7, 128, 0] 0 4)) =
        (.ok ([7, 7, 7, 7, 7, 7, 7], ([7, 7, 7, 7, 7, 7, 7] : List Nat).length), tr) ∧
      ∀ e ∈ tr, 1 ≤ e.2.1 ∧ e.2.1 ≤ e.1 ∧ 3 ≤ e.2.2 ∧ e.2.2 ≤ 264 := by
  refine c5_decoder_invariants [7, 7, 7, 7, 7, 7, 7] [7, 0, 0, 0, 0, 7, 128, 0] ?_
  have hf0 : find_match_lv1 [7, 7, 7, 7, 7, 7, 7] 0 8191 3 264 = none := by
    simp [find_match_lv1, findMatchFrom, matchLenFrom]
  have hf1 : find_match_lv1 [7, 7, 7, 7, 7, 7, 7] 1 8191 3 264 = some (1, 6) := by
    simp [find_match_lv1, findMatchFrom, matchLenFrom]
  have hbody : fastlz_compress_lv1 [7, 7, 7, 7, 7, 7, 7] = [0, 7, 128, 0] := by
    rw [fastlz_compress_lv1, if_neg (by norm_num)]
    rw [compressLv1Loop_step_none hf0 (by norm_num)]
    rw [compressLv1Loop_step_some hf1 (by norm_num)]
    rw [compressLv1Loop_end (by norm_num)]
    rw [if_neg (by norm_num)]
    rw [if_pos (by norm_num)]
    have hsl : pySlice [7, 7, 7, 7, 7, 7, 7] 0 1 = [7] := by simp [pySlice]
    rw [hsl]
    have hel : emit_literals [] [7] = [0, 7] := by
      rw [emit_literals]
      norm_num
      rw [emit_literals]
      norm_num
    rw [hel]
    simp [emit_match_lv1]
  unfold compress
  rw [if_neg (by norm_num), if_neg (by norm_num), if_pos rfl]
  simp only [hbody]
  simp [packU32, Except.map]

/-! ## Claim C7: level-2 offset computation -/

theorem lv2_trace_short {datain dataout : List Nat} {opcode0 datainIdx dataoutIdx b : Nat}
    (h1 : opcode0 >>> 5 ≠ 0) (h7 : opcode0 >>> 5 ≠ 7)
    (hb : pyGetNat datain datainIdx = .ok b)
    (hesc : ((opcode0 &&& 31) <<< 8) + b ≠ 8191) :
    ((lv2LoopTr datain opcode0 datainIdx dataout dataoutIdx).2).headD (0, 0, 0) =
      (dataoutIdx, ((((opcode0 &&& 31) <<< 8) + b : Nat) : Int), 2 + (opcode0 >>> 5)) := by
  rw [lv2LoopTr, if_neg h1, if_neg h7, hb]
  simp only []
  rw [if_neg hesc]
  split
  · rfl
  · split
    · rfl
    · rfl

theorem lv2_trace_short_esc {datain dataout : List Nat}
    {opcode0 datainIdx dataoutIdx b b0 b1 : Nat}
    (h1 : opcode0 >>> 5 ≠ 0) (h7 : opcode0 >>> 5 ≠ 7)
    (hb : pyGetNat datain datainIdx = .ok b)
    (hesc : ((opcode0 &&& 31) <<< 8) + b = 8191)
    (hb0 : pyGetNat (pySlice datain (datainIdx + 1) (datainIdx + 1 + 2)) 0 = .ok b0)
    (hb1 : pyGetNat (pySlice datain (datainIdx + 1) (datainIdx + 1 + 2)) 1 = .ok b1) :
    ((lv2LoopTr datain opcode0 datainIdx dataout dataoutIdx).2).headD (0, 0, 0) =
      (dataoutIdx, ((8191 + (b0 <<< 8) + b1 : Nat) : Int), 2 + (opcode0 >>> 5)) := by
  rw [lv2LoopTr, if_neg h1, if_neg h7, hb]
  simp only []
  rw [if_pos hesc, hb0]
  simp only []
  rw [hb1]
  simp only []
  rw [hesc]
  split
  · rfl
  · split
    · rfl
    · rfl

theorem lv2_trace_long {datain dataout : List Nat}
    {opcode0 datainIdx dataoutIdx b mlen idx1 : Nat}
    (h7 : opcode0 >>> 5 = 7)
    (hL : lv2LongLen datain datainIdx 9 = .ok (mlen, idx1))
    (hb : pyGetNat datain idx1 = .ok b)
    (hesc : ((opcode0 &&& 31) <<< 8) + b ≠ 8191) :
    ((lv2LoopTr datain opcode0 datainIdx dataout dataoutIdx).2).headD (0, 0, 0) =
      (dataoutIdx, ((((opcode0 &&& 31) <<< 8) + b : Nat) : Int), mlen) := by
  rw [lv2LoopTr, if_neg (by rw [h7]; norm_num), if_pos h7]
  cases hLL : lv2LongLen datain datainIdx 9 with
  | error e => rw [hL] at hLL; exact absurd hLL (by simp)
  | ok p =>
    obtain ⟨mlen', idx1'⟩ := p
    rw [hL] at hLL
    injection hLL with hp
    injection hp with hm hi
    subst hm
    subst hi
    simp only []
    rw [hb]
    simp only []
    rw [if_neg hesc]
    split
    · rfl
    · split
      · rfl
      · rfl

theorem lv2_trace_long_esc {datain dataout : List Nat}
    {opcode0 datainIdx dataoutIdx b mlen idx1 : Nat} {s : Int}
    (h7 : opcode0 >>> 5 = 7)
    (hL : lv2LongLen datain datainIdx 9 = .ok (mlen, idx1))
    (hb : pyGetNat datain idx1 = .ok b)
    (hesc : ((opcode0 &&& 31) <<< 8) + b = 8191)
    (hs : unpackSigned16 (pySlice datain (idx1 + 1) (idx1 + 1 + 2)) = .ok s) :
    ((lv2LoopTr datain opcode0 datainIdx dataout dataoutIdx).2).headD (0, 0, 0) =
      (dataoutIdx, ((8191 : Nat) : Int) + s, mlen) := by
  rw [lv2LoopTr, if_neg (by rw [h7]; norm_num), if_pos h7]
  cases hLL : lv2LongLen datain datainIdx 9 with
  | error e => rw [hL] at hLL; exact absurd hLL (by simp)
  | ok p =>
    obtain ⟨mlen', idx1'⟩ := p
    rw [hL] at hLL
    injection hLL with hp
    injection hp with hm hi
    subst hm
    subst hi
    simp only []
    rw [hb]
    simp only []
    rw [if_pos hesc]
    rw [hs]
    simp only []
    rw [hesc]
    split
    · rfl
    · split
      · rfl
      · rfl

theorem lv1_trace_short {datain dataout : List Nat} {opcode0 datainIdx dataoutIdx b : Nat}
    (h1 : opcode0 >>> 5 ≠ 0) (h7 : opcode0 >>> 5 ≠ 7)
    (hb : pyGetNat datain datainIdx = .ok b) :
    ((lv1LoopTr datain opcode0 datainIdx dataout dataoutIdx).2).headD (0, 0, 0) =
      (dataoutIdx, ((opcode0 &&& 31) <<< 8) + b + 1, 2 + (opcode0 >>> 5)) := by
  rw [lv1LoopTr, if_neg h1, if_neg h7, hb]
  simp only []
  split
  · rfl
  · split
    · rfl
    · rfl

theorem unpackSigned16_eq (b0 b1 : Nat) :
    unpackSigned16 [b0, b1] =
      .ok (if b0 + 256 * b1 < 32768 then (b0 + 256 * b1 : Int)
        else (b0 + 256 * b1 : Int) - 65536) := by
  unfold unpackSigned16
  rw [if_pos (show ([b0, b1] : List Nat).length = 2 from rfl)]
  simp only []
  rw [show ([b0, b1] : List Nat).getD 0 0 = b0 from rfl,
    show ([b0, b1] : List Nat).getD 1 0 = b1 from rfl]
  congr 1

/-- **C7** — Level-2 offset computation, read off the first recorded
`_memmove` call of the instrumented decoder loop: (1) a short match whose
accumulated 13-bit offset is not 8191 passes the raw offset with no `+1`;
(2) a short match whose 13-bit offset equals 8191 adds the next two bytes
big-endian unsigned (`(b0 <<< 8) + b1`); (3) a long match whose 13-bit
offset is not 8191 passes the raw offset with no `+1`; (4) a long match
whose 13-bit offset equals 8191 adds the two bytes as decoded by
`struct.unpack("=h", ...)` — native-endian signed 16-bit, which on the
little-endian reference platform is (5) `b0 + 256*b1`, wrapped to
`[-32768, 32767]`; (6) in contrast, the level-1 loop adds `+1` to its
accumulated offset. -/
theorem c7_lv2_offsets :
    (∀ (datain dataout : List Nat) (opcode0 datainIdx dataoutIdx b : Nat),
      opcode0 >>> 5 ≠ 0 → opcode0 >>> 5 ≠ 7 →
      pyGetNat datain datainIdx = .ok b →
      ((opcode0 &&& 31) <<< 8) + b ≠ 8191 →
      ((lv2LoopTr datain opcode0 datainIdx dataout dataoutIdx).2).headD (0, 0, 0) =
        (dataoutIdx, ((((opcode0 &&& 31) <<< 8) + b : Nat) : Int), 2 + (opcode0 >>> 5))) ∧
    (∀ (datain dataout : List Nat) (opcode0 datainIdx dataoutIdx b b0 b1 : Nat),
      opcode0 >>> 5 ≠ 0 → opcode0 >>> 5 ≠ 7 →
      pyGetNat datain datainIdx = .ok b →
      ((opcode0 &&& 31) <<< 8) + b = 8191 →
      pyGetNat (pySlice datain (datainIdx + 1) (datainIdx + 1 + 2)) 0 = .ok b0 →
      pyGetNat (pySlice datain (datainIdx + 1) (datainIdx + 1 + 2)) 1 = .ok b1 →
      ((lv2LoopTr datain opcode0 datainIdx dataout dataoutIdx).2).headD (0, 0, 0) =
        (dataoutIdx, ((8191 + (b0 <<< 8) + b1 : Nat) : Int), 2 + (opcode0 >>> 5))) ∧
    (∀ (datain dataout : List Nat) (opcode0 datainIdx dataoutIdx b mlen idx1 : Nat),
      opcode0 >>> 5 = 7 →
      lv2LongLen datain datainIdx 9 = .ok (mlen, idx1) →
      pyGetNat datain idx1 = .ok b →
      ((opcode0 &&& 31) <<< 8) + b ≠ 8191 →
      ((lv2LoopTr datain opcode0 datainIdx dataout dataoutIdx).2).headD (0, 0, 0) =
        (dataoutIdx, ((((opcode0 &&& 31) <<< 8) + b : Nat) : Int), mlen)) ∧
    (∀ (datain dataout : List Nat) (opcode0 datainIdx dataoutIdx b mlen idx1 : Nat) (s : Int),
      opcode0 >>> 5 = 7 →
      lv2LongLen datain datainIdx 9 = .ok (mlen, idx1) →
      pyGetNat datain idx1 = .ok b →
      ((opcode0 &&& 31) <<< 8) + b = 8191 →
      unpackSigned16 (pySlice datain (idx1 + 1) (idx1 + 1 + 2)) = .ok s →
      ((lv2LoopTr datain opcode0 datainIdx dataout dataoutIdx).2).headD (0, 0, 0) =
        (dataoutIdx, ((8191 : Nat) : Int) + s, mlen)) ∧
    (∀ b0 b1 : Nat, unpackSigned16 [b0, b1] =
      .ok (if b0 + 256 * b1 < 32768 then (b0 + 256 * b1 : Int)
        else (b0 + 256 * b1 : Int) - 65536)) ∧
    (∀ (datain dataout : List Nat) (opcode0 datainIdx dataoutIdx b : Nat),
      opcode0 >>> 5 ≠ 0 → opcode0 >>> 5 ≠ 7 →
      pyGetNat datain datainIdx = .ok b →
      ((lv1LoopTr datain opcode0 datainIdx dataout dataoutIdx).2).headD (0, 0, 0) =
        (dataoutIdx, ((opcode0 &&& 31) <<< 8) + b + 1, 2 + (opcode0 >>> 5))) := by
  refine ⟨?_, ?_, ?_, ?_, ?_, ?_⟩
  · intro datain dataout opcode0 datainIdx dataoutIdx b h1 h7 hb hesc
    exact lv2_trace_short h1 h7 hb hesc
  · intro datain dataout opcode0 datainIdx dataoutIdx b b0 b1 h1 h7 hb hesc hb0 hb1
    exact lv2_trace_short_esc h1 h7 hb hesc hb0 hb1
  · intro datain dataout opcode0 datainIdx dataoutIdx b mlen idx1 h7 hL hb hesc
    exact lv2_trace_long h7 hL hb hesc
  · intro datain dataout opcode0 datainIdx dataoutIdx b mlen idx1 s h7 hL hb hesc hs
    exact lv2_trace_long_esc h7 hL hb hesc hs
  · exact unpackSigned16_eq
  · intro datain dataout opcode0 datainIdx dataoutIdx b h1 h7 hb
    exact lv1_trace_short h1 h7 hb

theorem c7_witness :
    ((lv2LoopTr [32, 5] 32 1 [9, 0, 0, 0] 1).2).headD (0, 0, 0) = (1, (5 : Int), 3) ∧
    ((lv2LoopTr [63, 255, 1, 2] 63 1 [9, 0, 0, 0] 1).2).headD (0, 0, 0) =
      (1, (8449 : Int), 3) ∧
    ((lv2LoopTr [224, 0, 5] 224 1 [9, 0, 0, 0] 1).2).headD (0, 0, 0) = (1, (5 : Int), 9) ∧
    ((lv2LoopTr [255, 0, 255, 255, 255] 255 1 [9, 0, 0, 0] 1).2).headD (0, 0, 0) =
      (1, (8190 : Int), 9) ∧
    unpackSigned16 [255, 255] = .ok (-1) ∧
    ((lv1LoopTr [32, 5] 32 1 [9, 0, 0, 0] 1).2).headD (0, 0, 0) = (1, 6, 3) := by
  obtain ⟨h1, h2, h3, h4, h5, h6⟩ := c7_lv2_offsets
  refine ⟨?_, ?_, ?_, ?_, ?_, ?_⟩
  · exact (h1 [32, 5] [9, 0, 0, 0] 32 1 1 5 (by decide) (by decide) rfl (by decide)).trans
      (by decide)
  · exact (h2 [63, 255, 1, 2] [9, 0, 0, 0] 63 1 1 255 1 2 (by decide) (by decide) rfl
      (by decide) rfl rfl).trans (by decide)
  · exact (h3 [224, 0, 5] [9, 0, 0, 0] 224 1 1 5 9 2 (by decide)
      (by rw [lv2LongLen]; rfl) rfl (by decide)).trans (by decide)
  · exact (h4 [255, 0, 255, 255, 255] [9, 0, 0, 0] 255 1 1 255 9 2 (-1) (by decide)
      (by rw [lv2LongLen]; rfl) rfl (by decide)
      (by
        rw [show pySlice [255, 0, 255, 255, 255] (2 + 1) (2 + 1 + 2) = [255, 255] from rfl]
        rw [unpackSigned16_eq]
        norm_num)).trans (by decide)
  · exact (h5 255 255).trans (by norm_num)
  · exact (h6 [32, 5] [9, 0, 0, 0] 32 1 1 5 (by decide) (by decide) rfl).trans (by decide)

end FastLZ
